import Mathlib

/-! # Distance matching in the animation evaluator nodes

A shallow embedding of the distance-matching code of
`FAnimNode_BlendSpaceEvaluator::UpdateAssetPlayer` and
`FAnimNode_SequenceEvaluator::UpdateAssetPlayer`.

Floating point numbers are embedded as rationals (exact arithmetic).  The one
place where the code can leave the finite numbers is `fmod` with a zero
divisor, which yields NaN: a value that may be NaN is an `Option ℚ`, `none`
standing for NaN, and every comparison against NaN is false.
-/

namespace DistanceMatching

/-! ## Curves -/

/-- Key of a rich curve: a time and a value (`FRichCurveKey`). -/
structure FRichCurveKey where
  Time : ℚ
  Value : ℚ
deriving DecidableEq

/-- Modelled from the spec: the default constructed key `FRichCurveKey()` of the
engine, whose declaration is not part of the sources; time and value are zero. -/
def defaultKey : FRichCurveKey := ⟨0, 0⟩

/-- Modelled from the spec: linear interpolation between two keys `(t0,v0)` and
`(t1,v1)`, `v0 + (v1-v0) * (t-t0)/(t1-t0)`, the degenerate case `t1 == t0`
resolving to `v0` (section 4.1; the engine's curve evaluation is not part of
the sources). -/
def lerpKeys (k0 k1 : FRichCurveKey) (t : ℚ) : ℚ :=
  if k1.Time = k0.Time then k0.Value
  else k0.Value + (k1.Value - k0.Value) * (t - k0.Time) / (k1.Time - k0.Time)

/-- Modelled from the spec: the linear scan of section 4.1 over the keys in
ascending time order, for a time after the first key: the value interpolated
between the two bracketing keys. -/
def evalBetween : List FRichCurveKey → ℚ → ℚ
  | [], _ => 0
  | [k], _ => k.Value
  | k0 :: k1 :: rest, t =>
    if t < k1.Time then lerpKeys k0 k1 t else evalBetween (k1 :: rest) t

/-- Modelled from the spec: `Curve.evaluate` of section 4.1 (`FRichCurve::Eval`
and `FFloatCurve::Evaluate` of the engine, not part of the sources).  Before
the first key the first key's value, after the last key the last key's value,
between two keys the linear interpolation.  A curve without keys, which the
data model excludes from evaluation, is given the value 0. -/
def Evaluate (keys : List FRichCurveKey) (t : ℚ) : ℚ :=
  match keys with
  | [] => 0
  | k0 :: rest =>
    if t ≤ k0.Time then k0.Value
    else if ((k0 :: rest).getLast (List.cons_ne_nil k0 rest)).Time ≤ t then
      ((k0 :: rest).getLast (List.cons_ne_nil k0 rest)).Value
    else evalBetween (k0 :: rest) t

/-! ## Blending (AnimNode_BlendSpaceEvaluator.cpp, lines 38-72) -/

/-- The part of an animation sequence the blend reads: its play length
(`GetPlayLength()`) and the distance curve found on it, if any
(`GetCurveData().GetCurveData(CurveName.UID)`, null when not found). -/
structure UAnimSequence where
  PlayLength : ℚ
  DistanceCurve : Option (List FRichCurveKey)

/-- One sample of the blend space (`FBlendSampleData`): the animation, which may
be null, and the sample's weight (`GetWeight()`). -/
structure FBlendSampleData where
  Animation : Option UAnimSequence
  Weight : ℚ

/-- Lines 39-45: the empty curve used for blending, keys `(0.1 * i, 0)` for
`i = 0 .. 10`. -/
def blankKeys : List FRichCurveKey :=
  (List.range 11).map fun (i : ℕ) => ⟨(1 / 10 : ℚ) * (i : ℚ), 0⟩

/-- Lines 50-71: the body of the loop over the samples.  A sample without
animation or without the curve is skipped; otherwise every key of the blended
curve receives `Curve->Evaluate(key.Time * timeMultiplier) * weight + key.Value`. -/
def addSample (keys : List FRichCurveKey) (sample : FBlendSampleData) : List FRichCurveKey :=
  match sample.Animation with
  | none => keys
  | some anim =>
    let timeMultiplier := anim.PlayLength
    match anim.DistanceCurve with
    | none => keys
    | some curve =>
      keys.map fun key =>
        let adjustedTime := key.Time * timeMultiplier
        ⟨key.Time, Evaluate curve adjustedTime * sample.Weight + key.Value⟩

/-- Lines 38-72: the blended distance curve of a list of blend samples. -/
def BlendedDistanceCurve (samples : List FBlendSampleData) : List FRichCurveKey :=
  samples.foldl addSample blankKeys

/-! ## Resolving a distance to a time (lines 74-127) -/

/-- Truncated remainder `x - y * trunc (x / y)`: the value of C `fmod x y` for a
non-zero divisor. -/
def truncRem (x y : ℚ) : ℚ :=
  let q := x / y
  x - y * (if 0 ≤ q then (⌊q⌋ : ℤ) else (⌈q⌉ : ℤ))

/-- C `fmod`: NaN (`none`) for a zero divisor, the truncated remainder
otherwise. -/
def fmod (x y : ℚ) : Option ℚ :=
  if y = 0 then none else some (truncRem x y)

/-- Line 75: `BlendedDistanceCurve.Keys.Last().Value`. -/
def maxDistanceOf (keys : List FRichCurveKey) : ℚ :=
  (keys.getLast?.getD defaultKey).Value

/-- Line 76: `BlendedDistanceCurve.Keys[0].Value`. -/
def minDistanceOf (keys : List FRichCurveKey) : ℚ :=
  (keys.head?.getD defaultKey).Value

/-- Line 80: the distance to match, absolute or relative to the distance at the
previous time. -/
def effectiveDistance (keys : List FRichCurveKey) (bUseDeltaDistance : Bool)
    (prevTime inputDistance : ℚ) : ℚ :=
  if bUseDeltaDistance then Evaluate keys prevTime + inputDistance else inputDistance

/-- Lines 82-93: the loop wraparound of the distance.  The result is NaN
(`none`) when `fmod` is taken with a zero `deltaDistance`. -/
def wrapDistance (bLoop : Bool) (minDistance maxDistance distance : ℚ) : Option ℚ :=
  let deltaDistance := maxDistance - minDistance
  if bLoop then
    if distance > maxDistance then
      (fmod distance deltaDistance).map fun m => minDistance + m
    else if distance < minDistance then
      (fmod distance deltaDistance).map fun m => maxDistance - m
    else some distance
  else some distance

/-- Lines 105-123: the scan over the keys of the blended curve, `prevKey` being
the key visited before; the first key whose value is greater than the distance
stops the iteration.  When no key stops it, `time` keeps its initial `0.0`. -/
def scanKeys (distance : ℚ) : FRichCurveKey → List FRichCurveKey → ℚ
  | _, [] => 0
  | prevKey, key :: rest =>
    if key.Value > distance then
      let delta := key.Value - prevKey.Value
      let alpha := if delta ≠ 0 then (distance - prevKey.Value) / delta else 0
      prevKey.Time + alpha * (key.Time - prevKey.Time)
    else scanKeys distance key rest

/-- Lines 95-127: the playback time for a distance that is a number. -/
def timeOfDistance (keys : List FRichCurveKey) (distance : ℚ) : ℚ :=
  if distance ≥ maxDistanceOf keys then 1
  else if distance ≤ minDistanceOf keys then 0
  else scanKeys distance defaultKey keys

/-- Lines 95-127 for a distance that may be NaN: with NaN every comparison of
lines 95, 99 and 111 is false, so the scan runs to the end and the time is its
initial `0.0`. -/
def timeOfWrapped (keys : List FRichCurveKey) : Option ℚ → ℚ
  | some distance => timeOfDistance keys distance
  | none => 0

/-- Lines 82-127: the blended resolver from the effective distance on. -/
def resolveDistance (keys : List FRichCurveKey) (bLoop : Bool) (distance : ℚ) : ℚ :=
  timeOfWrapped keys (wrapDistance bLoop (minDistanceOf keys) (maxDistanceOf keys) distance)

/-- Lines 74-127: the blended resolver. -/
def resolveTime (keys : List FRichCurveKey) (bLoop bUseDeltaDistance : Bool)
    (prevTime inputDistance : ℚ) : ℚ :=
  resolveDistance keys bLoop (effectiveDistance keys bUseDeltaDistance prevTime inputDistance)

/-- The blend space of the node as the update reads it: whether it has a
skeleton, and the samples `GetSamplesFromBlendInput` returns for the node's
blend input. -/
structure UBlendSpace where
  HasSkeleton : Bool
  Samples : List FBlendSampleData

/-- The fields of `FAnimNode_BlendSpaceEvaluator` the update reads and writes. -/
structure BlendSpaceEvaluator where
  BlendSpace : Option UBlendSpace
  bUseDistanceMatching : Bool
  bUseDeltaDistance : Bool
  bLoop : Bool
  NormalizedTime : ℚ
  InternalTimeAccumulator : ℚ
  PlayRate : ℚ

/-- Modelled from the spec: clamping a value into `[lo, hi]` (the engine's
`FMath::Clamp`, not part of the sources). -/
def clamp (x lo hi : ℚ) : ℚ :=
  if x < lo then lo else if x < hi then x else hi

/-- Lines 19-134 of AnimNode_BlendSpaceEvaluator.cpp:
`FAnimNode_BlendSpaceEvaluator::UpdateAssetPlayer`. -/
def BlendSpaceEvaluator.UpdateAssetPlayer (node : BlendSpaceEvaluator) : BlendSpaceEvaluator :=
  let time :=
    match node.BlendSpace with
    | some blendSpace =>
      if node.bUseDistanceMatching && blendSpace.HasSkeleton then
        resolveTime (BlendedDistanceCurve blendSpace.Samples) node.bLoop node.bUseDeltaDistance
          node.InternalTimeAccumulator node.NormalizedTime
      else clamp node.NormalizedTime 0 1
    | none => clamp node.NormalizedTime 0 1
  { node with InternalTimeAccumulator := time, PlayRate := 0 }

/-! ## The sequence evaluator (AnimNode_SequenceEvaluator.cpp) -/

/-- The part of the node's sequence (`UAnimSequenceBase`) the update reads. -/
structure UAnimSequenceBase where
  SequenceLength : ℚ
  PlayLength : ℚ
  RateScale : ℚ
  HasSkeleton : Bool
  DistanceCurve : Option (List FRichCurveKey)
deriving DecidableEq

/-- Modelled from the spec: the reinitialisation policy `ESequenceEvalReinit`,
whose declaration is not part of the sources.  The switch of line 111 handles
`StartPosition` and `ExplicitTime`; any other value leaves the accumulator. -/
inductive ESequenceEvalReinit where
  | NoReset
  | StartPosition
  | ExplicitTime
deriving DecidableEq

/-- Modelled from the spec: the engine's `INDEX_NONE`. -/
def INDEX_NONE : ℤ := -1

/-- Modelled from the spec: the engine's `SMALL_NUMBER`, the default tolerance of
`FMath::IsNearlyZero`. -/
def SMALL_NUMBER : ℚ := 1 / 100000000

/-- Modelled from the spec: the engine's `FMath::IsNearlyZero`, "numerically
zero" in section 4.4. -/
def IsNearlyZero (x : ℚ) : Bool := decide (|x| ≤ SMALL_NUMBER)

/-- The fields of `FAnimNode_SequenceEvaluator` the update reads and writes. -/
structure SequenceEvaluator where
  Sequence : Option UAnimSequenceBase
  bShouldUseExplicityTimeAsDistanceCurveLookup : Bool
  bDistanceCurveInputIsDeltaDistance : Bool
  bShouldLoop : Bool
  bTeleportToExplicitTime : Bool
  GroupIndex : ℤ
  bReinitialized : Bool
  ReinitializationBehavior : ESequenceEvalReinit
  ExplicitTime : ℚ
  StartPosition : ℚ
  InternalTimeAccumulator : ℚ
deriving DecidableEq

/-- What the update reads from `FAnimationUpdateContext`: the delta time and
whether the proxy's skeleton is compatible with the sequence's. -/
structure UpdateContext where
  DeltaTime : ℚ
  SkeletonCompatible : Bool

/-- Lines 76-94: the scan over the keys of the clip's curve; the first key whose
value is at least the distance stops the iteration.  When no key stops it,
`time` keeps the value it had before the loop. -/
def scanClipKeys (currentDistance time : ℚ) : FRichCurveKey → List FRichCurveKey → ℚ
  | _, [] => time
  | prevKey, key :: rest =>
    if key.Value ≥ currentDistance then
      let delta := key.Value - prevKey.Value
      let alpha := if delta ≠ 0 then (currentDistance - prevKey.Value) / delta else 0
      prevKey.Time + alpha * (key.Time - prevKey.Time)
    else scanClipKeys currentDistance time key rest

/-- Lines 56-70: `time` and `currentDistance` after the overshoot test.  The
distance is NaN (`none`) when `fmod` is taken with a zero `maxDistance`. -/
def overshoot (bShouldLoop : Bool) (maxTime maxDistance currentDistance time : ℚ) :
    ℚ × Option ℚ :=
  if currentDistance > maxDistance then
    if !bShouldLoop then (maxTime, some currentDistance)
    else (0, fmod currentDistance maxDistance)
  else (time, some currentDistance)

/-- Lines 47-49: the distance to match on the clip's curve, the explicit time
taken as a distance, absolute or relative to the distance at the start
position. -/
def targetDistance (curve : List FRichCurveKey) (bDistanceCurveInputIsDeltaDistance : Bool)
    (ExplicitTime StartPosition : ℚ) : ℚ :=
  let prevDistance := Evaluate curve StartPosition
  if bDistanceCurveInputIsDeltaDistance then prevDistance + ExplicitTime else ExplicitTime

/-- Lines 46-98: the single-clip resolver.  The result is the time written to
`StartPosition` and `InternalTimeAccumulator`, or `none` when the block of line
74 is skipped and both are left as they are.  With a NaN distance the test of
line 74 succeeds and no comparison of line 82 does. -/
def matchDistance (curve : List FRichCurveKey) (maxTime : ℚ)
    (bShouldLoop bDistanceCurveInputIsDeltaDistance : Bool)
    (ExplicitTime StartPosition : ℚ) : Option ℚ :=
  let prevDistance := Evaluate curve StartPosition
  let currentDistance :=
    targetDistance curve bDistanceCurveInputIsDeltaDistance ExplicitTime StartPosition
  let maxDistance := Evaluate curve maxTime
  let time := if currentDistance < prevDistance then 0 else StartPosition
  match overshoot bShouldLoop maxTime maxDistance currentDistance time with
  | (time, some currentDistance) =>
    if prevDistance ≠ currentDistance then
      some (scanClipKeys currentDistance time defaultKey curve)
    else none
  | (time, none) => some time

/-- Lines 120-134: the time jump with the correction at the loop seam. -/
def timeJump (bShouldLoop : Bool) (SequenceLength ExplicitTime InternalTimeAccumulator : ℚ) : ℚ :=
  let TimeJump := ExplicitTime - InternalTimeAccumulator
  if bShouldLoop then
    if |TimeJump| > SequenceLength * (1 / 2) then
      if TimeJump > 0 then TimeJump - SequenceLength else TimeJump + SequenceLength
    else TimeJump
  else TimeJump

/-- Lines 104-151: the explicit-time branch.  The second component is the play
rate of the tick record, when one is created. -/
def explicitTimeBranch (node : SequenceEvaluator) (seq : UAnimSequenceBase)
    (ctx : UpdateContext) : SequenceEvaluator × Option ℚ :=
  let ExplicitTime := clamp node.ExplicitTime 0 seq.SequenceLength
  if (!node.bTeleportToExplicitTime || node.GroupIndex ≠ INDEX_NONE) && ctx.SkeletonCompatible then
    let accumulator :=
      if node.bReinitialized then
        clamp
          (match node.ReinitializationBehavior with
            | ESequenceEvalReinit.StartPosition => node.StartPosition
            | ESequenceEvalReinit.ExplicitTime => ExplicitTime
            | ESequenceEvalReinit.NoReset => node.InternalTimeAccumulator)
          0 seq.SequenceLength
      else node.InternalTimeAccumulator
    let TimeJump := timeJump node.bShouldLoop seq.SequenceLength ExplicitTime accumulator
    let accumulator := if TimeJump = 0 then ExplicitTime else accumulator
    let DeltaTime := ctx.DeltaTime
    let RateScale := seq.RateScale
    let PlayRate :=
      if IsNearlyZero DeltaTime || IsNearlyZero RateScale then 0
      else TimeJump / (DeltaTime * RateScale)
    ({ node with ExplicitTime := ExplicitTime, InternalTimeAccumulator := accumulator,
                 bReinitialized := false }, some PlayRate)
  else
    ({ node with ExplicitTime := ExplicitTime, InternalTimeAccumulator := ExplicitTime,
                 bReinitialized := false }, none)

/-- Lines 32-155 of AnimNode_SequenceEvaluator.cpp:
`FAnimNode_SequenceEvaluator::UpdateAssetPlayer`.  The second component is the
play rate of the tick record, when one is created. -/
def SequenceEvaluator.UpdateAssetPlayer (node : SequenceEvaluator) (ctx : UpdateContext) :
    SequenceEvaluator × Option ℚ :=
  match node.Sequence with
  | none => ({ node with bReinitialized := false }, none)
  | some seq =>
    if node.bShouldUseExplicityTimeAsDistanceCurveLookup && seq.HasSkeleton then
      match seq.DistanceCurve with
      | none => ({ node with bReinitialized := false }, none)
      | some curve =>
        match matchDistance curve seq.PlayLength node.bShouldLoop
            node.bDistanceCurveInputIsDeltaDistance node.ExplicitTime node.StartPosition with
        | none => ({ node with bReinitialized := false }, none)
        | some time =>
          ({ node with StartPosition := time, InternalTimeAccumulator := time,
                       bReinitialized := false }, none)
    else explicitTimeBranch node seq ctx

/-! ## The blended curve in closed form -/

/-- A sample that takes part in the blend, as weight, clip duration and curve:
the sample has an animation and the distance curve is found on it. -/
def validSample (sample : FBlendSampleData) : Option (ℚ × ℚ × List FRichCurveKey) :=
  match sample.Animation with
  | none => none
  | some anim =>
    match anim.DistanceCurve with
    | none => none
    | some curve => some (sample.Weight, anim.PlayLength, curve)

/-- The sum, over the samples that have an animation and a distance curve, of
`weight * evaluate(sampleCurve, s * clipDuration)`. -/
def weightedSum (samples : List FBlendSampleData) (s : ℚ) : ℚ :=
  ((samples.filterMap validSample).map fun v => v.1 * Evaluate v.2.2 (s * v.2.1)).sum

/-- Clip A of the blend weighting example: curve `(0,0)-(1,10)`, weight 0.5,
duration 1. -/
def clipA : FBlendSampleData := ⟨some ⟨1, some [⟨0, 0⟩, ⟨1, 10⟩]⟩, 1 / 2⟩

/-- Clip B of the blend weighting example: curve `(0,0)-(1,20)`, weight 0.5,
duration 1. -/
def clipB : FBlendSampleData := ⟨some ⟨1, some [⟨0, 0⟩, ⟨1, 20⟩]⟩, 1 / 2⟩

/-- A blend sample whose animation is absent. -/
def noAnimation (weight : ℚ) : FBlendSampleData := ⟨none, weight⟩

/-- A blend sample whose animation lacks the distance curve. -/
def noCurve (weight playLength : ℚ) : FBlendSampleData := ⟨some ⟨playLength, none⟩, weight⟩

/-- The curve `(0,0)-(1,100)`: minimum distance 0, maximum distance 100. -/
def hundredCurve : List FRichCurveKey := [⟨0, 0⟩, ⟨1, 100⟩]

/-- The curve `(0,-100)-(1,0)` of a clip that ends at distance 0. -/
def stopCurve : List FRichCurveKey := [⟨0, -100⟩, ⟨1, 0⟩]

/-- A clip of length 2 on which the distance curve is not found. -/
def clipWithoutCurve : UAnimSequenceBase := ⟨2, 2, 1, true, none⟩

/-- A node with distance matching enabled on `clipWithoutCurve`, just
reinitialised, with explicit time 5 and accumulator 1. -/
def staleNode : SequenceEvaluator :=
  { Sequence := some clipWithoutCurve
    bShouldUseExplicityTimeAsDistanceCurveLookup := true
    bDistanceCurveInputIsDeltaDistance := false
    bShouldLoop := false
    bTeleportToExplicitTime := false
    GroupIndex := INDEX_NONE
    bReinitialized := true
    ReinitializationBehavior := ESequenceEvalReinit.ExplicitTime
    ExplicitTime := 5
    StartPosition := 0
    InternalTimeAccumulator := 1 }

/-- An update context with a 30 Hz tick and a compatible skeleton. -/
def tickContext : UpdateContext := ⟨1 / 30, true⟩

/-- Key times strictly increasing, the order of the keys of a curve. -/
def TimesIncreasing (keys : List FRichCurveKey) : Prop :=
  keys.Chain' fun a b => a.Time < b.Time

instance (keys : List FRichCurveKey) : Decidable (TimesIncreasing keys) :=
  inferInstanceAs (Decidable (keys.Chain' fun (a b : FRichCurveKey) => a.Time < b.Time))

/-- Key values non-decreasing in time: a monotonic distance curve. -/
def ValuesNondecreasing (keys : List FRichCurveKey) : Prop :=
  keys.Chain' fun a b => a.Value ≤ b.Value

instance (keys : List FRichCurveKey) : Decidable (ValuesNondecreasing keys) :=
  inferInstanceAs (Decidable (keys.Chain' fun (a b : FRichCurveKey) => a.Value ≤ b.Value))

/-- Key values strictly increasing in time. -/
def ValuesIncreasing (keys : List FRichCurveKey) : Prop :=
  keys.Chain' fun a b => a.Value < b.Value

instance (keys : List FRichCurveKey) : Decidable (ValuesIncreasing keys) :=
  inferInstanceAs (Decidable (keys.Chain' fun (a b : FRichCurveKey) => a.Value < b.Value))

/-- A clip of duration 1 and weight 1 whose distance curve rises to 10 at half
time and stays there: `(0,0)-(0.5,10)-(1,10)`. -/
def plateauClip : FBlendSampleData := ⟨some ⟨1, some [⟨0, 0⟩, ⟨1 / 2, 10⟩, ⟨1, 10⟩]⟩, 1⟩

/-- A clip of length 1 with the distance curve `(0,0)-(1,10)`. -/
def walkClip : UAnimSequenceBase := ⟨1, 1, 1, true, some [⟨0, 0⟩, ⟨1, 10⟩]⟩

/-- A node matching, not looping and in absolute mode, the distance 25 on
`walkClip` from the start position 0.3. -/
def overshootNode : SequenceEvaluator :=
  { Sequence := some walkClip
    bShouldUseExplicityTimeAsDistanceCurveLookup := true
    bDistanceCurveInputIsDeltaDistance := false
    bShouldLoop := false
    bTeleportToExplicitTime := false
    GroupIndex := INDEX_NONE
    bReinitialized := false
    ReinitializationBehavior := ESequenceEvalReinit.NoReset
    ExplicitTime := 25
    StartPosition := 3 / 10
    InternalTimeAccumulator := 3 / 10 }

/-- Lines 109-118: the accumulator the time jump of line 120 is taken from, the
node's accumulator after the reinitialisation, if any. -/
def preJumpAccumulator (node : SequenceEvaluator) (seq : UAnimSequenceBase) : ℚ :=
  let ExplicitTime := clamp node.ExplicitTime 0 seq.SequenceLength
  if node.bReinitialized then
    clamp
      (match node.ReinitializationBehavior with
        | ESequenceEvalReinit.StartPosition => node.StartPosition
        | ESequenceEvalReinit.ExplicitTime => ExplicitTime
        | ESequenceEvalReinit.NoReset => node.InternalTimeAccumulator)
      0 seq.SequenceLength
  else node.InternalTimeAccumulator

/-- A looping clip of length 2 without distance matching data. -/
def seamClip : UAnimSequenceBase := ⟨2, 2, 1, true, none⟩

/-- A looping node in the explicit-time branch on `seamClip`: accumulator 0 and
explicit time 2, the clip length. -/
def seamNode : SequenceEvaluator :=
  { Sequence := some seamClip
    bShouldUseExplicityTimeAsDistanceCurveLookup := false
    bDistanceCurveInputIsDeltaDistance := false
    bShouldLoop := true
    bTeleportToExplicitTime := false
    GroupIndex := INDEX_NONE
    bReinitialized := false
    ReinitializationBehavior := ESequenceEvalReinit.NoReset
    ExplicitTime := 2
    StartPosition := 0
    InternalTimeAccumulator := 0 }

/-- A clip of duration 1 and weight 1 whose curve rises, falls and rises again:
`(0,0)-(0.3,10)-(0.6,2)-(1,20)`. -/
def zigzagClip : FBlendSampleData :=
  ⟨some ⟨1, some [⟨0, 0⟩, ⟨3 / 10, 10⟩, ⟨6 / 10, 2⟩, ⟨1, 20⟩]⟩, 1⟩

/-! ## The branches of the blended resolver with a distance that may be NaN -/

/-- The test `distance >= maxDistance` of line 95 for a distance that may be NaN
(`none`): false for NaN. -/
def geNaN : Option ℚ → ℚ → Bool
  | some distance, maxDistance => decide (distance ≥ maxDistance)
  | none, _ => false

/-- The test `distance <= minDistance` of line 99 for a distance that may be NaN
(`none`): false for NaN. -/
def leNaN : Option ℚ → ℚ → Bool
  | some distance, minDistance => decide (distance ≤ minDistance)
  | none, _ => false

/-- The test `key.Value > distance` of line 111 for a distance that may be NaN
(`none`): false for NaN. -/
def gtNaN : ℚ → Option ℚ → Bool
  | value, some distance => decide (value > distance)
  | _, none => false

/-- Lines 95-103: whether the `else` branch of line 103, the interior branch, is
taken. -/
def interiorBranch (keys : List FRichCurveKey) (distance : Option ℚ) : Bool :=
  !geNaN distance (maxDistanceOf keys) && !leNaN distance (minDistanceOf keys)

/-- Lines 108-123: the key at which the scan of the interior branch stops,
together with `prevKey`, the key visited before it; `none` when no key stops
the iteration. -/
def findBracket (distance : Option ℚ) :
    FRichCurveKey → List FRichCurveKey → Option (FRichCurveKey × FRichCurveKey)
  | _, [] => none
  | prevKey, key :: rest =>
    if gtNaN key.Value distance then some (prevKey, key)
    else findBracket distance key rest

/-- Lines 114-116: the interpolation alpha between `prevKey` and `key`. -/
def alphaOf (distance : ℚ) (prevKey key : FRichCurveKey) : ℚ :=
  let delta := key.Value - prevKey.Value
  if delta ≠ 0 then (distance - prevKey.Value) / delta else 0

/-- Lines 105-126: the time of the interior branch from the outcome of the
scan; the initial `0.0` when no key stopped it. -/
def bracketTime : Option ℚ → Option (FRichCurveKey × FRichCurveKey) → ℚ
  | some distance, some (prevKey, key) =>
    prevKey.Time + alphaOf distance prevKey key * (key.Time - prevKey.Time)
  | _, _ => 0

/-- A looping blend-space node with distance matching whose blend space returns
no sample: the blended curve is all zero; the distance to match is 5. -/
def emptyLoopNode : BlendSpaceEvaluator :=
  { BlendSpace := some ⟨true, []⟩
    bUseDistanceMatching := true
    bUseDeltaDistance := false
    bLoop := true
    NormalizedTime := 5
    InternalTimeAccumulator := 0
    PlayRate := 1 }

/-- A looping blend-space node with distance matching on clips A and B
(distances 0 to 15); the distance to match is -5. -/
def backwardLoopNode : BlendSpaceEvaluator :=
  { BlendSpace := some ⟨true, [clipA, clipB]⟩
    bUseDistanceMatching := true
    bUseDeltaDistance := false
    bLoop := true
    NormalizedTime := -5
    InternalTimeAccumulator := 0
    PlayRate := 1 }

/-! # Theorems -/

/-! ## Lemmas on the blended curve -/

theorem addSample_eq (keys : List FRichCurveKey) (sample : FBlendSampleData) :
    addSample keys sample =
      keys.map fun key => ⟨key.Time, key.Value + weightedSum [sample] key.Time⟩ := by
  unfold addSample weightedSum validSample
  cases hA : sample.Animation with
  | none => simp [hA]
  | some anim =>
    cases hC : anim.DistanceCurve with
    | none => simp [hA, hC]
    | some curve =>
      simp only [hA, hC, List.filterMap_cons, List.filterMap_nil, List.map_cons, List.map_nil,
        List.sum_cons, List.sum_nil, add_zero]
      apply List.map_congr_left
      intro key _
      congr 1
      ring

theorem weightedSum_cons (sample : FBlendSampleData) (samples : List FBlendSampleData) (s : ℚ) :
    weightedSum (sample :: samples) s = weightedSum [sample] s + weightedSum samples s := by
  unfold weightedSum
  cases h : validSample sample <;> simp [List.filterMap_cons, h]

theorem foldl_addSample (samples : List FBlendSampleData) (keys : List FRichCurveKey) :
    samples.foldl addSample keys =
      keys.map fun key => ⟨key.Time, key.Value + weightedSum samples key.Time⟩ := by
  induction samples generalizing keys with
  | nil => simp [weightedSum]
  | cons sample samples ih =>
    rw [List.foldl_cons, ih, addSample_eq, List.map_map]
    apply List.map_congr_left
    intro key _
    simp only [Function.comp_apply, weightedSum_cons sample samples]
    congr 1
    ring

theorem blended_eq (samples : List FBlendSampleData) :
    BlendedDistanceCurve samples =
      (List.range 11).map fun (i : ℕ) => ⟨(i : ℚ) / 10, weightedSum samples ((i : ℚ) / 10)⟩ := by
  unfold BlendedDistanceCurve blankKeys
  rw [foldl_addSample, List.map_map]
  apply List.map_congr_left
  intro i _
  simp only [Function.comp_apply, zero_add]
  have h : (1 / 10 : ℚ) * (i : ℚ) = (i : ℚ) / 10 := by ring
  rw [h]

theorem blended_getLast? (samples : List FBlendSampleData) :
    (BlendedDistanceCurve samples).getLast? = some ⟨1, weightedSum samples 1⟩ := by
  rw [blended_eq]
  simp [List.range, List.range.loop]

theorem blended_head? (samples : List FBlendSampleData) :
    (BlendedDistanceCurve samples).head? = some ⟨0, weightedSum samples 0⟩ := by
  rw [blended_eq]
  simp [List.range, List.range.loop]

theorem blended_ne_nil (samples : List FBlendSampleData) : BlendedDistanceCurve samples ≠ [] := by
  rw [blended_eq]
  simp [List.range, List.range.loop]

theorem blended_timesIncreasing (samples : List FBlendSampleData) :
    TimesIncreasing (BlendedDistanceCurve samples) := by
  rw [blended_eq]
  simp [TimesIncreasing, List.range, List.range.loop]
  norm_num

theorem blended_head_time (samples : List FBlendSampleData) :
    ((BlendedDistanceCurve samples).head (blended_ne_nil samples)).Time = 0 := by
  have h := blended_head? samples
  rw [List.head?_eq_head (blended_ne_nil samples)] at h
  rw [Option.some.inj h]

theorem blended_getLast_time (samples : List FBlendSampleData) :
    ((BlendedDistanceCurve samples).getLast (blended_ne_nil samples)).Time = 1 := by
  have h := blended_getLast? samples
  rw [List.getLast?_eq_getLast _ (blended_ne_nil samples)] at h
  rw [Option.some.inj h]

theorem filterMap_validSample_filter (samples : List FBlendSampleData) :
    (samples.filter fun s => (validSample s).isSome).filterMap validSample =
      samples.filterMap validSample := by
  induction samples with
  | nil => rfl
  | cons s samples ih =>
    cases h : validSample s <;> simp [List.filter_cons, List.filterMap_cons, h, ih]

theorem blended_congr (xs ys : List FBlendSampleData)
    (h : ys.filterMap validSample = xs.filterMap validSample) :
    BlendedDistanceCurve ys = BlendedDistanceCurve xs := by
  rw [blended_eq, blended_eq]
  unfold weightedSum
  rw [h]

theorem blended_clipAB : BlendedDistanceCurve [clipA, clipB] =
    [⟨0, 0⟩, ⟨1 / 10, 3 / 2⟩, ⟨2 / 10, 3⟩, ⟨3 / 10, 9 / 2⟩, ⟨4 / 10, 6⟩, ⟨5 / 10, 15 / 2⟩,
      ⟨6 / 10, 9⟩, ⟨7 / 10, 21 / 2⟩, ⟨8 / 10, 12⟩, ⟨9 / 10, 27 / 2⟩, ⟨1, 15⟩] := by
  simp [BlendedDistanceCurve, blankKeys, addSample, clipA, clipB, Evaluate, evalBetween, lerpKeys,
    List.range, List.range.loop]
  norm_num

theorem maxDistance_clipAB : maxDistanceOf (BlendedDistanceCurve [clipA, clipB]) = 15 := by
  simp [maxDistanceOf, blended_getLast?, weightedSum, validSample, clipA, clipB, Evaluate]
  norm_num

theorem minDistance_clipAB : minDistanceOf (BlendedDistanceCurve [clipA, clipB]) = 0 := by
  simp [minDistanceOf, blended_head?, weightedSum, validSample, clipA, clipB, Evaluate]

theorem valuesIncreasing_clipAB : ValuesIncreasing (BlendedDistanceCurve [clipA, clipB]) := by
  rw [blended_clipAB]
  simp [ValuesIncreasing]
  norm_num

theorem blended_plateau : BlendedDistanceCurve [plateauClip] =
    [⟨0, 0⟩, ⟨1 / 10, 2⟩, ⟨2 / 10, 4⟩, ⟨3 / 10, 6⟩, ⟨4 / 10, 8⟩, ⟨5 / 10, 10⟩, ⟨6 / 10, 10⟩,
      ⟨7 / 10, 10⟩, ⟨8 / 10, 10⟩, ⟨9 / 10, 10⟩, ⟨1, 10⟩] := by
  simp [BlendedDistanceCurve, blankKeys, addSample, plateauClip, Evaluate, evalBetween, lerpKeys,
    List.range, List.range.loop]
  norm_num

theorem maxDistance_nil : maxDistanceOf (BlendedDistanceCurve []) = 0 := by
  simp [maxDistanceOf, blended_getLast?, weightedSum]

theorem minDistance_nil : minDistanceOf (BlendedDistanceCurve []) = 0 := by
  simp [minDistanceOf, blended_head?, weightedSum]

theorem minDistance_hundredCurve : minDistanceOf hundredCurve = 0 := by
  simp [minDistanceOf, hundredCurve]

theorem maxDistance_hundredCurve : maxDistanceOf hundredCurve = 100 := by
  simp [maxDistanceOf, hundredCurve]

/-! ## Lemmas on curve evaluation and the scans -/

theorem chain_le_getLast (f : FRichCurveKey → ℚ) (rest : List FRichCurveKey) :
    ∀ prev : FRichCurveKey, List.Chain (fun a b => f a ≤ f b) prev rest →
      ∀ k ∈ prev :: rest, f k ≤ f ((prev :: rest).getLast (List.cons_ne_nil prev rest)) := by
  induction rest with
  | nil =>
    intro prev _ k hk
    simp only [List.mem_singleton] at hk
    simp [hk]
  | cons key rest ih =>
    intro prev hchain k hk
    rw [List.chain_cons] at hchain
    rw [List.getLast_cons (List.cons_ne_nil key rest)]
    rcases List.mem_cons.mp hk with h | h
    · rw [h]
      exact le_trans hchain.1 (ih key hchain.2 key (List.mem_cons_self key rest))
    · exact ih key hchain.2 k h

theorem chain_lt_getLast (f : FRichCurveKey → ℚ) (rest : List FRichCurveKey)
    (prev : FRichCurveKey) (hchain : List.Chain (fun a b => f a < f b) prev rest)
    (hne : rest ≠ []) :
    f prev < f ((prev :: rest).getLast (List.cons_ne_nil prev rest)) := by
  cases rest with
  | nil => exact absurd rfl hne
  | cons key rest =>
    rw [List.chain_cons] at hchain
    rw [List.getLast_cons (List.cons_ne_nil key rest)]
    exact lt_of_lt_of_le hchain.1
      (chain_le_getLast f rest key (hchain.2.imp fun _ _ h => le_of_lt h) key
        (List.mem_cons_self key rest))

theorem maxDistanceOf_cons (k0 : FRichCurveKey) (rest : List FRichCurveKey) :
    maxDistanceOf (k0 :: rest) = ((k0 :: rest).getLast (List.cons_ne_nil k0 rest)).Value := by
  simp [maxDistanceOf, List.getLast?_eq_getLast]

theorem minDistanceOf_cons (k0 : FRichCurveKey) (rest : List FRichCurveKey) :
    minDistanceOf (k0 :: rest) = k0.Value := by
  simp [minDistanceOf]

theorem Evaluate_cons (k0 : FRichCurveKey) (rest : List FRichCurveKey) (t : ℚ) :
    Evaluate (k0 :: rest) t =
      if t ≤ k0.Time then k0.Value
      else if ((k0 :: rest).getLast (List.cons_ne_nil k0 rest)).Time ≤ t then
        ((k0 :: rest).getLast (List.cons_ne_nil k0 rest)).Value
      else evalBetween (k0 :: rest) t := rfl

theorem lerpKeys_eq (prev key : FRichCurveKey) (t : ℚ) (ht : prev.Time < key.Time) :
    lerpKeys prev key t =
      prev.Value + (key.Value - prev.Value) * ((t - prev.Time) / (key.Time - prev.Time)) := by
  unfold lerpKeys
  rw [if_neg (ne_of_gt ht), mul_div_assoc]

theorem lerpKeys_alpha (prev key : FRichCurveKey) (d : ℚ) (ht : prev.Time < key.Time)
    (hv : prev.Value ≠ key.Value) :
    lerpKeys prev key
      (prev.Time + (d - prev.Value) / (key.Value - prev.Value) * (key.Time - prev.Time)) = d := by
  have h1 : key.Time - prev.Time ≠ 0 := sub_ne_zero.mpr (ne_of_gt ht)
  have h2 : key.Value - prev.Value ≠ 0 := sub_ne_zero.mpr (Ne.symm hv)
  unfold lerpKeys
  rw [if_neg (ne_of_gt ht)]
  field_simp
  ring

theorem lerpKeys_le (k0 k1 : FRichCurveKey) (t M : ℚ) (hlo : k0.Time ≤ t) (hhi : t < k1.Time)
    (h0 : k0.Value ≤ M) (h1 : k1.Value ≤ M) : lerpKeys k0 k1 t ≤ M := by
  have ht : k0.Time < k1.Time := lt_of_le_of_lt hlo hhi
  have hdt : 0 < k1.Time - k0.Time := by linarith
  rw [lerpKeys_eq k0 k1 t ht]
  have ha0 : 0 ≤ (t - k0.Time) / (k1.Time - k0.Time) := div_nonneg (by linarith) (le_of_lt hdt)
  have ha1 : (t - k0.Time) / (k1.Time - k0.Time) ≤ 1 := by
    rw [div_le_one hdt]; linarith
  nlinarith [mul_nonneg ha0 (sub_nonneg.mpr h1), mul_nonneg (sub_nonneg.mpr ha1) (sub_nonneg.mpr h0)]

theorem evalBetween_head (prev : FRichCurveKey) (rest : List FRichCurveKey)
    (hchain : List.Chain (fun a b => a.Time < b.Time) prev rest) :
    evalBetween (prev :: rest) prev.Time = prev.Value := by
  cases rest with
  | nil => simp [evalBetween]
  | cons key rest =>
    rw [List.chain_cons] at hchain
    simp [evalBetween, hchain.1, lerpKeys]

theorem evalBetween_le (t M : ℚ) (rest : List FRichCurveKey) :
    ∀ prev : FRichCurveKey, prev.Time ≤ t → (∀ k ∈ prev :: rest, k.Value ≤ M) →
      evalBetween (prev :: rest) t ≤ M := by
  induction rest with
  | nil =>
    intro prev _ hM
    simpa [evalBetween] using hM prev (List.mem_singleton_self prev)
  | cons key rest ih =>
    intro prev hlo hM
    have hp : prev.Value ≤ M := hM prev (List.mem_cons_self _ _)
    have hk : key.Value ≤ M := hM key (List.mem_cons_of_mem _ (List.mem_cons_self _ _))
    rw [evalBetween]
    by_cases h : t < key.Time
    · rw [if_pos h]
      exact lerpKeys_le prev key t M hlo h hp hk
    · rw [if_neg h]
      exact ih key (not_lt.mp h) fun k hk => hM k (List.mem_cons_of_mem _ hk)

theorem Evaluate_eq_evalBetween (prev : FRichCurveKey) (rest : List FRichCurveKey) (t : ℚ)
    (hchain : List.Chain (fun a b => a.Time < b.Time) prev rest) (hlo : prev.Time ≤ t)
    (hhi : t < ((prev :: rest).getLast (List.cons_ne_nil prev rest)).Time) :
    Evaluate (prev :: rest) t = evalBetween (prev :: rest) t := by
  unfold Evaluate
  by_cases h : t ≤ prev.Time
  · have ht : t = prev.Time := le_antisymm h hlo
    simp only [if_pos h]
    rw [ht, evalBetween_head prev rest hchain]
  · simp only [if_neg h, if_neg (not_le.mpr hhi)]

theorem Evaluate_at_end (k0 : FRichCurveKey) (rest : List FRichCurveKey) (maxTime : ℚ)
    (htimes : TimesIncreasing (k0 :: rest)) (hkeys : ∀ k ∈ k0 :: rest, k.Time ≤ maxTime) :
    Evaluate (k0 :: rest) maxTime =
      ((k0 :: rest).getLast (List.cons_ne_nil k0 rest)).Value := by
  rw [Evaluate_cons]
  by_cases h1 : maxTime ≤ k0.Time
  · rw [if_pos h1]
    cases rest with
    | nil => simp
    | cons k1 rest =>
      have hct : List.Chain (fun a b => a.Time < b.Time) k0 (k1 :: rest) := htimes
      rw [List.chain_cons] at hct
      have := hkeys k1 (List.mem_cons_of_mem _ (List.mem_cons_self _ _))
      exact absurd (lt_of_lt_of_le hct.1 this) (not_lt.mpr h1)
  · rw [if_neg h1, if_pos (hkeys _ (List.getLast_mem _))]

theorem values_le_end (curve : List FRichCurveKey) (maxTime : ℚ)
    (htimes : TimesIncreasing curve) (hvals : ValuesNondecreasing curve)
    (hkeys : ∀ k ∈ curve, k.Time ≤ maxTime) :
    ∀ k ∈ curve, k.Value ≤ Evaluate curve maxTime := by
  cases curve with
  | nil => intro k hk; simp at hk
  | cons k0 rest =>
    rw [Evaluate_at_end k0 rest maxTime htimes hkeys]
    exact chain_le_getLast (fun k => k.Value) rest k0 hvals

theorem Evaluate_le_end (curve : List FRichCurveKey) (maxTime t : ℚ)
    (htimes : TimesIncreasing curve) (hvals : ValuesNondecreasing curve)
    (hkeys : ∀ k ∈ curve, k.Time ≤ maxTime) :
    Evaluate curve t ≤ Evaluate curve maxTime := by
  cases curve with
  | nil => simp [Evaluate]
  | cons k0 rest =>
    have hM := values_le_end (k0 :: rest) maxTime htimes hvals hkeys
    rw [Evaluate_cons k0 rest t]
    by_cases h1 : t ≤ k0.Time
    · rw [if_pos h1]
      exact hM k0 (List.mem_cons_self _ _)
    · rw [if_neg h1]
      by_cases h2 : ((k0 :: rest).getLast (List.cons_ne_nil k0 rest)).Time ≤ t
      · rw [if_pos h2]
        exact hM _ (List.getLast_mem _)
      · rw [if_neg h2]
        exact evalBetween_le t _ rest k0 (le_of_lt (not_le.mp h1)) hM

theorem scanKeys_spec (d : ℚ) (rest : List FRichCurveKey) :
    ∀ prev : FRichCurveKey, List.Chain (fun a b => a.Time < b.Time) prev rest →
      prev.Value ≤ d → d < ((prev :: rest).getLast (List.cons_ne_nil prev rest)).Value →
      prev.Time ≤ scanKeys d prev rest ∧
      scanKeys d prev rest < ((prev :: rest).getLast (List.cons_ne_nil prev rest)).Time ∧
      evalBetween (prev :: rest) (scanKeys d prev rest) = d := by
  induction rest with
  | nil =>
    intro prev _ hle hlt
    simp only [List.getLast_singleton] at hlt
    exact absurd hlt (not_lt.mpr hle)
  | cons key rest ih =>
    intro prev hchain hle hlt
    rw [List.chain_cons] at hchain
    obtain ⟨ht, hchain⟩ := hchain
    have hlastT : key.Time ≤ ((key :: rest).getLast (List.cons_ne_nil key rest)).Time :=
      chain_le_getLast (fun k => k.Time) rest key (hchain.imp fun _ _ h => le_of_lt h) key
        (List.mem_cons_self key rest)
    rw [List.getLast_cons (List.cons_ne_nil key rest)] at hlt ⊢
    by_cases hk : key.Value > d
    · have hdelta : key.Value - prev.Value > 0 := by linarith
      have hscan : scanKeys d prev (key :: rest) =
          prev.Time + (d - prev.Value) / (key.Value - prev.Value) * (key.Time - prev.Time) := by
        simp [scanKeys, hk, ne_of_gt hdelta]
      have ha0 : 0 ≤ (d - prev.Value) / (key.Value - prev.Value) :=
        div_nonneg (by linarith) (le_of_lt hdelta)
      have ha1 : (d - prev.Value) / (key.Value - prev.Value) < 1 := by
        rw [div_lt_one hdelta]; linarith
      have hdt : 0 < key.Time - prev.Time := by linarith
      have hlo : prev.Time ≤ scanKeys d prev (key :: rest) := by
        rw [hscan]; nlinarith [mul_nonneg ha0 (le_of_lt hdt)]
      have hhi : scanKeys d prev (key :: rest) < key.Time := by
        rw [hscan]; nlinarith [mul_lt_mul_of_pos_right ha1 hdt]
      refine ⟨hlo, lt_of_lt_of_le hhi hlastT, ?_⟩
      rw [evalBetween, if_pos hhi, hscan]
      exact lerpKeys_alpha prev key d ht (by intro h; rw [h] at hdelta; simp at hdelta)
    · have hk' : key.Value ≤ d := not_lt.mp hk
      have hscan : scanKeys d prev (key :: rest) = scanKeys d key rest := by
        simp [scanKeys, hk]
      obtain ⟨h1, h2, h3⟩ := ih key hchain hk' hlt
      rw [hscan]
      refine ⟨le_trans (le_of_lt ht) h1, h2, ?_⟩
      rw [evalBetween, if_neg (not_lt.mpr h1)]
      exact h3

theorem scanKeys_evalBetween (t : ℚ) (rest : List FRichCurveKey) :
    ∀ prev : FRichCurveKey, List.Chain (fun a b => a.Time < b.Time) prev rest →
      List.Chain (fun a b => a.Value < b.Value) prev rest →
      prev.Time ≤ t → t < ((prev :: rest).getLast (List.cons_ne_nil prev rest)).Time →
      prev.Value ≤ evalBetween (prev :: rest) t ∧
      (prev.Time < t → prev.Value < evalBetween (prev :: rest) t) ∧
      evalBetween (prev :: rest) t <
        ((prev :: rest).getLast (List.cons_ne_nil prev rest)).Value ∧
      scanKeys (evalBetween (prev :: rest) t) prev rest = t := by
  induction rest with
  | nil =>
    intro prev _ _ hlo hhi
    simp only [List.getLast_singleton] at hhi
    exact absurd hhi (not_lt.mpr hlo)
  | cons key rest ih =>
    intro prev htimes hvals hlo hhi
    rw [List.chain_cons] at htimes hvals
    obtain ⟨ht, htimes⟩ := htimes
    obtain ⟨hv, hvals⟩ := hvals
    have hlastV : key.Value ≤ ((key :: rest).getLast (List.cons_ne_nil key rest)).Value :=
      chain_le_getLast (fun k => k.Value) rest key (hvals.imp fun _ _ h => le_of_lt h) key
        (List.mem_cons_self key rest)
    rw [List.getLast_cons (List.cons_ne_nil key rest)] at hhi ⊢
    by_cases hk : t < key.Time
    · have hdt : 0 < key.Time - prev.Time := by linarith
      have hdv : 0 < key.Value - prev.Value := by linarith
      have hev : evalBetween (prev :: key :: rest) t =
          prev.Value + (key.Value - prev.Value) * ((t - prev.Time) / (key.Time - prev.Time)) := by
        rw [evalBetween, if_pos hk, lerpKeys_eq prev key t ht]
      have ha0 : 0 ≤ (t - prev.Time) / (key.Time - prev.Time) :=
        div_nonneg (by linarith) (le_of_lt hdt)
      have ha1 : (t - prev.Time) / (key.Time - prev.Time) < 1 := by
        rw [div_lt_one hdt]; linarith
      have hlt : evalBetween (prev :: key :: rest) t < key.Value := by
        rw [hev]; nlinarith [mul_lt_mul_of_pos_left ha1 hdv]
      refine ⟨?_, ?_, lt_of_lt_of_le hlt hlastV, ?_⟩
      · rw [hev]; nlinarith [mul_nonneg (le_of_lt hdv) ha0]
      · intro hpos
        have ha : 0 < (t - prev.Time) / (key.Time - prev.Time) := div_pos (by linarith) hdt
        rw [hev]; nlinarith [mul_pos hdv ha]
      · rw [scanKeys, if_pos hlt]
        simp only [ne_eq, ne_of_gt hdv, not_false_eq_true, if_true]
        rw [hev]
        have h1 : key.Time - prev.Time ≠ 0 := ne_of_gt hdt
        have h2 : key.Value - prev.Value ≠ 0 := ne_of_gt hdv
        field_simp
        ring
    · have hk' : key.Time ≤ t := not_lt.mp hk
      obtain ⟨h1, _, h3, h4⟩ := ih key htimes hvals hk' hhi
      have hev : evalBetween (prev :: key :: rest) t = evalBetween (key :: rest) t := by
        rw [evalBetween, if_neg hk]
      rw [hev]
      refine ⟨by linarith, fun _ => by linarith, h3, ?_⟩
      rw [scanKeys, if_neg (not_lt.mpr h1)]
      exact h4

theorem scanClipKeys_none (currentDistance time : ℚ) (keys : List FRichCurveKey) :
    ∀ prev : FRichCurveKey, (∀ k ∈ keys, k.Value < currentDistance) →
      scanClipKeys currentDistance time prev keys = time := by
  induction keys with
  | nil => intro _ _; rfl
  | cons key rest ih =>
    intro prev h
    rw [scanClipKeys, if_neg (not_le.mpr (h key (List.mem_cons_self _ _)))]
    exact ih key fun k hk => h k (List.mem_cons_of_mem _ hk)

theorem matchDistance_overshoot (curve : List FRichCurveKey) (maxTime : ℚ) (bDelta : Bool)
    (ExplicitTime StartPosition : ℚ)
    (htimes : TimesIncreasing curve) (hvals : ValuesNondecreasing curve)
    (hkeys : ∀ k ∈ curve, k.Time ≤ maxTime)
    (hover : targetDistance curve bDelta ExplicitTime StartPosition > Evaluate curve maxTime) :
    matchDistance curve maxTime false bDelta ExplicitTime StartPosition = some maxTime := by
  have hprev : Evaluate curve StartPosition ≤ Evaluate curve maxTime :=
    Evaluate_le_end curve maxTime StartPosition htimes hvals hkeys
  have hne : Evaluate curve StartPosition ≠ targetDistance curve bDelta ExplicitTime StartPosition :=
    ne_of_lt (lt_of_le_of_lt hprev hover)
  have hscan := scanClipKeys_none (targetDistance curve bDelta ExplicitTime StartPosition) maxTime
    curve defaultKey fun k hk =>
      lt_of_le_of_lt (values_le_end curve maxTime htimes hvals hkeys k hk) hover
  simp only [matchDistance, overshoot, if_pos hover, Bool.not_false, if_true]
  simp [hne, hscan]

/-! ## C1: the blended curve -/

/-- C1: for every list of blend samples the blended curve has exactly 11 keys,
key `i` has time `i/10` and its value is the sum, over the samples that have an
animation and a distance curve, of `weight * evaluate(curve, (i/10) * duration)`;
for clip A `(0,0)-(1,10)` and clip B `(0,0)-(1,20)`, both of weight 0.5 and
duration 1, the key at normalized time 1.0 has value 15. -/
theorem blendedCurve_keys :
    (∀ samples : List FBlendSampleData,
      (BlendedDistanceCurve samples).length = 11 ∧
      ∀ i : Fin 11, (BlendedDistanceCurve samples)[(i : ℕ)]? =
        some ⟨(i : ℚ) / 10, weightedSum samples ((i : ℚ) / 10)⟩) ∧
    (BlendedDistanceCurve [clipA, clipB])[10]? = some ⟨1, 15⟩ := by
  refine ⟨fun samples => ⟨?_, fun i => ?_⟩, ?_⟩
  · simp [blended_eq]
  · rw [blended_eq, List.getElem?_map, List.getElem?_range i.isLt]
    simp
  · simp [BlendedDistanceCurve, blankKeys, addSample, clipA, clipB, Evaluate, List.range,
      List.range.loop]
    norm_num

/-! ## C2: the inverse lookup finds the distance -/

/-- C2: not looping and in absolute mode, for every curve with strictly
increasing key times from 0 to 1 (every blended curve) and arbitrary key
values, and every target distance `d` with `minDistance <= d <= maxDistance`,
the resolved time `t` satisfies `evaluate(curve, t) = d`. -/
theorem resolve_finds_distance (keys : List FRichCurveKey) (hne : keys ≠ [])
    (htimes : TimesIncreasing keys) (hfirst : (keys.head hne).Time = 0)
    (hlast : (keys.getLast hne).Time = 1) (prevTime d : ℚ)
    (hmin : minDistanceOf keys ≤ d) (hmax : d ≤ maxDistanceOf keys) :
    Evaluate keys (resolveTime keys false false prevTime d) = d := by
  cases keys with
  | nil => exact absurd rfl hne
  | cons k0 rest =>
    simp only [List.head_cons] at hfirst
    rw [maxDistanceOf_cons] at hmax
    rw [minDistanceOf_cons] at hmin
    have hchain : List.Chain (fun a b => a.Time < b.Time) k0 rest := htimes
    simp only [resolveTime, resolveDistance, wrapDistance, effectiveDistance, timeOfWrapped,
      timeOfDistance, Bool.false_eq_true, if_false, maxDistanceOf_cons, minDistanceOf_cons]
    by_cases h1 : d ≥ ((k0 :: rest).getLast (List.cons_ne_nil k0 rest)).Value
    · rw [if_pos h1]
      unfold Evaluate
      simp only [hfirst, hlast]
      norm_num
      exact le_antisymm h1 hmax
    · rw [if_neg h1]
      by_cases h2 : d ≤ k0.Value
      · rw [if_pos h2]
        unfold Evaluate
        simp only [hfirst]
        norm_num
        exact le_antisymm hmin h2
      · rw [if_neg h2]
        have hscan : scanKeys d defaultKey (k0 :: rest) = scanKeys d k0 rest := by
          simp [scanKeys, h2]
          intro h
          exact absurd (le_of_lt h) (by linarith)
        rw [hscan]
        obtain ⟨hlo, hhi, heq⟩ := scanKeys_spec d rest k0 hchain hmin (not_le.mp h1)
        rw [Evaluate_eq_evalBetween k0 rest _ hchain hlo hhi]
        exact heq

/-- Witness of C2: the distance 6 on the blend of clips A and B, whose distances
run from 0 to 15. -/
theorem resolve_finds_distance_witness :
    Evaluate (BlendedDistanceCurve [clipA, clipB])
      (resolveTime (BlendedDistanceCurve [clipA, clipB]) false false 0 6) = 6 :=
  resolve_finds_distance (BlendedDistanceCurve [clipA, clipB]) (blended_ne_nil _)
    (blended_timesIncreasing _) (blended_head_time _) (blended_getLast_time _) 0 6
    (by rw [minDistance_clipAB]; norm_num) (by rw [maxDistance_clipAB]; norm_num)

/-! ## C3: inverse round trip -/

/-- Counterexample to C3: the blend of `plateauClip` alone has non-decreasing
key values `0, 2, 4, 6, 8, 10, 10, ..., 10`; the distance evaluated at time 0.7
is 10, the maximum, and resolves to time 1, not 0.7. -/
theorem round_trip_fails_on_plateau :
    TimesIncreasing (BlendedDistanceCurve [plateauClip]) ∧
    ValuesNondecreasing (BlendedDistanceCurve [plateauClip]) ∧
    resolveTime (BlendedDistanceCurve [plateauClip]) false false 0
      (Evaluate (BlendedDistanceCurve [plateauClip]) (7 / 10)) = 1 ∧
    resolveTime (BlendedDistanceCurve [plateauClip]) false false 0
      (Evaluate (BlendedDistanceCurve [plateauClip]) (7 / 10)) ≠ 7 / 10 := by
  have hev : Evaluate (BlendedDistanceCurve [plateauClip]) (7 / 10) = 10 := by
    rw [blended_plateau]
    simp [Evaluate, evalBetween, lerpKeys]
    norm_num
  have hmax : maxDistanceOf (BlendedDistanceCurve [plateauClip]) = 10 := by
    rw [blended_plateau]; simp [maxDistanceOf]
  have hres : resolveTime (BlendedDistanceCurve [plateauClip]) false false 0
      (Evaluate (BlendedDistanceCurve [plateauClip]) (7 / 10)) = 1 := by
    simp [resolveTime, resolveDistance, wrapDistance, effectiveDistance, timeOfWrapped,
      timeOfDistance, hev, hmax]
  refine ⟨blended_timesIncreasing _, ?_, hres, ?_⟩
  · rw [blended_plateau]
    simp [ValuesNondecreasing]
    norm_num
  · rw [hres]; norm_num

/-- C3, amended: for any curve with strictly increasing key times from 0 to 1
whose key values are strictly increasing, and any time `t` in `[0, 1]`, the
blended resolver called not looping, in absolute mode, with target distance
`evaluate(curve, t)` returns exactly `t`. -/
theorem inverse_round_trip (keys : List FRichCurveKey) (hne : keys ≠ [])
    (htimes : TimesIncreasing keys) (hvals : ValuesIncreasing keys)
    (hfirst : (keys.head hne).Time = 0) (hlast : (keys.getLast hne).Time = 1)
    (prevTime t : ℚ) (ht0 : 0 ≤ t) (ht1 : t ≤ 1) :
    resolveTime keys false false prevTime (Evaluate keys t) = t := by
  cases keys with
  | nil => exact absurd rfl hne
  | cons k0 rest =>
    simp only [List.head_cons] at hfirst
    have hct : List.Chain (fun a b => a.Time < b.Time) k0 rest := htimes
    have hcv : List.Chain (fun a b => a.Value < b.Value) k0 rest := hvals
    have hrest : rest ≠ [] := by
      intro h
      subst h
      simp only [List.getLast_singleton] at hlast
      rw [hfirst] at hlast
      exact absurd hlast (by norm_num)
    have hlt : k0.Value < ((k0 :: rest).getLast (List.cons_ne_nil k0 rest)).Value :=
      chain_lt_getLast (fun k => k.Value) rest k0 hcv hrest
    simp only [resolveTime, resolveDistance, wrapDistance, effectiveDistance, timeOfWrapped,
      timeOfDistance, Bool.false_eq_true, if_false, maxDistanceOf_cons, minDistanceOf_cons]
    by_cases h0 : t ≤ k0.Time
    · have hev : Evaluate (k0 :: rest) t = k0.Value := by
        rw [Evaluate_cons, if_pos h0]
      rw [hev, if_neg (not_le.mpr hlt), if_pos (le_refl _)]
      rw [hfirst] at h0
      exact le_antisymm ht0 h0
    · by_cases h1 : ((k0 :: rest).getLast (List.cons_ne_nil k0 rest)).Time ≤ t
      · have hev : Evaluate (k0 :: rest) t =
            ((k0 :: rest).getLast (List.cons_ne_nil k0 rest)).Value := by
          rw [Evaluate_cons, if_neg h0, if_pos h1]
        rw [hev, if_pos (le_refl _)]
        rw [hlast] at h1
        exact le_antisymm h1 ht1
      · have hev : Evaluate (k0 :: rest) t = evalBetween (k0 :: rest) t := by
          rw [Evaluate_cons, if_neg h0, if_neg h1]
        obtain ⟨_, hgt, hlt', hscan⟩ :=
          scanKeys_evalBetween t rest k0 hct hcv (le_of_lt (not_le.mp h0)) (not_le.mp h1)
        have hgt' := hgt (not_le.mp h0)
        rw [hev, if_neg (not_le.mpr hlt'), if_neg (not_le.mpr hgt')]
        rw [scanKeys, if_neg (not_lt.mpr (le_of_lt hgt'))]
        exact hscan

/-- Witness of the amended C3: time 1/4 on the blend of clips A and B. -/
theorem inverse_round_trip_witness :
    resolveTime (BlendedDistanceCurve [clipA, clipB]) false false 0
      (Evaluate (BlendedDistanceCurve [clipA, clipB]) (1 / 4)) = 1 / 4 :=
  inverse_round_trip (BlendedDistanceCurve [clipA, clipB]) (blended_ne_nil _)
    (blended_timesIncreasing _) valuesIncreasing_clipAB (blended_head_time _)
    (blended_getLast_time _) 0 (1 / 4) (by norm_num) (by norm_num)

/-! ## C4: boundary clamp -/

/-- C4: when not looping, for every blended curve and every effective distance,
if the distance is at least `maxDistance` the playback time is the last key's
time, 1.0, and otherwise if the distance is at most `minDistance` the playback
time is the first key's time, 0.0. -/
theorem boundary_clamp (samples : List FBlendSampleData) (bUseDeltaDistance : Bool)
    (prevTime inputDistance : ℚ) :
    (effectiveDistance (BlendedDistanceCurve samples) bUseDeltaDistance prevTime inputDistance ≥
        maxDistanceOf (BlendedDistanceCurve samples) →
      resolveTime (BlendedDistanceCurve samples) false bUseDeltaDistance prevTime inputDistance = 1 ∧
      (BlendedDistanceCurve samples).getLast?.map (fun k => k.Time) = some 1) ∧
    (¬ effectiveDistance (BlendedDistanceCurve samples) bUseDeltaDistance prevTime inputDistance ≥
        maxDistanceOf (BlendedDistanceCurve samples) →
      effectiveDistance (BlendedDistanceCurve samples) bUseDeltaDistance prevTime inputDistance ≤
        minDistanceOf (BlendedDistanceCurve samples) →
      resolveTime (BlendedDistanceCurve samples) false bUseDeltaDistance prevTime inputDistance = 0 ∧
      (BlendedDistanceCurve samples).head?.map (fun k => k.Time) = some 0) := by
  refine ⟨fun h => ⟨?_, ?_⟩, fun h1 h2 => ⟨?_, ?_⟩⟩
  · simp only [resolveTime, resolveDistance, wrapDistance, timeOfWrapped, timeOfDistance]
    simp [h]
  · simp [blended_getLast?]
  · simp only [resolveTime, resolveDistance, wrapDistance, timeOfWrapped, timeOfDistance]
    simp only [Bool.false_eq_true, if_false, if_neg h1, if_pos h2]
  · simp [blended_head?]

/-- Witness of C4: on the blend of clips A and B (distances 0 to 15) the distance
20 resolves to time 1 and the distance -3 to time 0. -/
theorem boundary_clamp_witness :
    (resolveTime (BlendedDistanceCurve [clipA, clipB]) false false 0 20 = 1 ∧
      (BlendedDistanceCurve [clipA, clipB]).getLast?.map (fun k => k.Time) = some 1) ∧
    (resolveTime (BlendedDistanceCurve [clipA, clipB]) false false 0 (-3) = 0 ∧
      (BlendedDistanceCurve [clipA, clipB]).head?.map (fun k => k.Time) = some 0) :=
  ⟨(boundary_clamp [clipA, clipB] false 0 20).1
      (by simp [effectiveDistance, maxDistance_clipAB]; norm_num),
    (boundary_clamp [clipA, clipB] false 0 (-3)).2
      (by simp [effectiveDistance, maxDistance_clipAB]; norm_num)
      (by simp [effectiveDistance, minDistance_clipAB])⟩

/-! ## C5: single-clip overshoot -/

/-- C5: in the distance-matching branch of the sequence evaluator, when not
looping, for every distance curve with strictly increasing key times,
non-decreasing key values and no key later than the clip's play length, and
every start position, if the target distance exceeds
`maxDistance = evaluate(curve, playLength)` then after the update both
`InternalTimeAccumulator` and `StartPosition` equal the play length. -/
theorem single_clip_overshoot (node : SequenceEvaluator) (seq : UAnimSequenceBase)
    (curve : List FRichCurveKey) (ctx : UpdateContext)
    (hseq : node.Sequence = some seq)
    (hflag : node.bShouldUseExplicityTimeAsDistanceCurveLookup = true)
    (hskel : seq.HasSkeleton = true) (hcurve : seq.DistanceCurve = some curve)
    (hloop : node.bShouldLoop = false)
    (htimes : TimesIncreasing curve) (hvals : ValuesNondecreasing curve)
    (hkeys : ∀ k ∈ curve, k.Time ≤ seq.PlayLength)
    (hover : targetDistance curve node.bDistanceCurveInputIsDeltaDistance node.ExplicitTime
        node.StartPosition > Evaluate curve seq.PlayLength) :
    (node.UpdateAssetPlayer ctx).1.InternalTimeAccumulator = seq.PlayLength ∧
    (node.UpdateAssetPlayer ctx).1.StartPosition = seq.PlayLength := by
  have h := matchDistance_overshoot curve seq.PlayLength node.bDistanceCurveInputIsDeltaDistance
    node.ExplicitTime node.StartPosition htimes hvals hkeys hover
  simp [SequenceEvaluator.UpdateAssetPlayer, hseq, hflag, hskel, hcurve, hloop, h]

/-- Witness of C5: the clip `walkClip` of length 1 with curve `(0,0)-(1,10)`, start
position 0.3 and target distance 25. -/
theorem single_clip_overshoot_witness :
    (overshootNode.UpdateAssetPlayer tickContext).1.InternalTimeAccumulator = walkClip.PlayLength ∧
    (overshootNode.UpdateAssetPlayer tickContext).1.StartPosition = walkClip.PlayLength :=
  single_clip_overshoot overshootNode walkClip [⟨0, 0⟩, ⟨1, 10⟩] tickContext rfl rfl rfl rfl rfl
    (by simp [TimesIncreasing])
    (by simp [ValuesNondecreasing])
    (by simp [walkClip])
    (by simp [targetDistance, overshootNode, walkClip, Evaluate]; norm_num)

/-! ## C6: samples without a curve -/

/-- C6: when two lists of blend samples have the same samples with an animation
and a distance curve, in the same order (so one is the other with samples
added, at any positions and with any weights, whose animation is absent or
whose curve is not found), their blended curves are equal, and so is the
resolved time for every input.  The blend is a total function: it completes. -/
theorem missing_curve_tolerance (xs ys : List FBlendSampleData)
    (h : (ys.filter fun s => (validSample s).isSome) =
      xs.filter fun s => (validSample s).isSome) :
    BlendedDistanceCurve ys = BlendedDistanceCurve xs ∧
    ∀ (bLoop bUseDeltaDistance : Bool) (prevTime inputDistance : ℚ),
      resolveTime (BlendedDistanceCurve ys) bLoop bUseDeltaDistance prevTime inputDistance =
        resolveTime (BlendedDistanceCurve xs) bLoop bUseDeltaDistance prevTime inputDistance := by
  have key : BlendedDistanceCurve ys = BlendedDistanceCurve xs := by
    apply blended_congr
    rw [← filterMap_validSample_filter ys, ← filterMap_validSample_filter xs, h]
  exact ⟨key, fun _ _ _ _ => by rw [key]⟩

/-- Witness of C6: three samples without animation or curve added before,
between and after clips A and B. -/
theorem missing_curve_tolerance_witness :
    BlendedDistanceCurve [noAnimation 3, clipA, noCurve 1 2, clipB, noAnimation 0] =
        BlendedDistanceCurve [clipA, clipB] ∧
    ∀ (bLoop bUseDeltaDistance : Bool) (prevTime inputDistance : ℚ),
      resolveTime (BlendedDistanceCurve [noAnimation 3, clipA, noCurve 1 2, clipB, noAnimation 0])
          bLoop bUseDeltaDistance prevTime inputDistance =
        resolveTime (BlendedDistanceCurve [clipA, clipB]) bLoop bUseDeltaDistance prevTime
          inputDistance :=
  missing_curve_tolerance [clipA, clipB]
    [noAnimation 3, clipA, noCurve 1 2, clipB, noAnimation 0] rfl

/-! ## C7: the distance curve is not found on the clip -/

/-- Counterexample to C7: distance matching is enabled, the sequence has a
skeleton and the curve is not found; the update leaves the explicit time 5 and
the accumulator 1 and creates no tick record, where the explicit-time branch
gives explicit time 2, accumulator 2 and play rate 0. -/
theorem missing_curve_no_fallback :
    staleNode.Sequence = some clipWithoutCurve ∧
    staleNode.bShouldUseExplicityTimeAsDistanceCurveLookup = true ∧
    clipWithoutCurve.HasSkeleton = true ∧ clipWithoutCurve.DistanceCurve = none ∧
    (staleNode.UpdateAssetPlayer tickContext).1.ExplicitTime = 5 ∧
    (explicitTimeBranch staleNode clipWithoutCurve tickContext).1.ExplicitTime = 2 ∧
    (staleNode.UpdateAssetPlayer tickContext).1.InternalTimeAccumulator = 1 ∧
    (explicitTimeBranch staleNode clipWithoutCurve tickContext).1.InternalTimeAccumulator = 2 ∧
    (staleNode.UpdateAssetPlayer tickContext).2 = none ∧
    (explicitTimeBranch staleNode clipWithoutCurve tickContext).2 = some 0 := by
  refine ⟨rfl, rfl, rfl, rfl, ?_, ?_, ?_, ?_, ?_, ?_⟩ <;>
    simp [SequenceEvaluator.UpdateAssetPlayer, explicitTimeBranch, staleNode, clipWithoutCurve,
      tickContext, clamp, timeJump, INDEX_NONE] <;> norm_num

/-- C7, amended: for every node state, when distance matching is enabled and
the sequence has a skeleton but the distance curve is not found on the clip,
the update leaves `ExplicitTime`, `StartPosition` and `InternalTimeAccumulator`
as they are and creates no tick record; only `bReinitialized` is cleared. -/
theorem missing_curve_leaves_node (node : SequenceEvaluator) (seq : UAnimSequenceBase)
    (ctx : UpdateContext) (hseq : node.Sequence = some seq)
    (hflag : node.bShouldUseExplicityTimeAsDistanceCurveLookup = true)
    (hskel : seq.HasSkeleton = true) (hcurve : seq.DistanceCurve = none) :
    node.UpdateAssetPlayer ctx = ({ node with bReinitialized := false }, none) := by
  simp [SequenceEvaluator.UpdateAssetPlayer, hseq, hflag, hskel, hcurve]

/-- Witness of the amended C7 on `staleNode`. -/
theorem missing_curve_leaves_node_witness :
    staleNode.UpdateAssetPlayer tickContext = ({ staleNode with bReinitialized := false }, none) :=
  missing_curve_leaves_node staleNode clipWithoutCurve tickContext rfl rfl rfl rfl

/-! ## C8: loop wraparound -/

/-- C8: with `loop == true` and `deltaDistance > 0`, a distance above
`maxDistance` resolves to the time the non-looping resolver gives for
`minDistance + fmod(distance, deltaDistance)`, a distance below `minDistance`
to the time it gives for `maxDistance - fmod(distance, deltaDistance)`; with
`minDistance = 0` and `maxDistance = 100`, distance 110 resolves to the same
time as distance 10. -/
theorem loop_wraparound (keys : List FRichCurveKey) (distance : ℚ)
    (hdelta : maxDistanceOf keys - minDistanceOf keys > 0) :
    (distance > maxDistanceOf keys →
      resolveDistance keys true distance =
        resolveDistance keys false
          (minDistanceOf keys + truncRem distance (maxDistanceOf keys - minDistanceOf keys))) ∧
    (distance < minDistanceOf keys →
      resolveDistance keys true distance =
        resolveDistance keys false
          (maxDistanceOf keys - truncRem distance (maxDistanceOf keys - minDistanceOf keys))) ∧
    (minDistanceOf keys = 0 → maxDistanceOf keys = 100 →
      resolveDistance keys true 110 = resolveDistance keys false 10 ∧
      resolveDistance keys true 110 = resolveDistance keys true 10) := by
  have hne : maxDistanceOf keys - minDistanceOf keys ≠ 0 := ne_of_gt hdelta
  refine ⟨fun h => ?_, fun h => ?_, fun h0 h100 => ?_⟩
  · simp [resolveDistance, wrapDistance, fmod, h, hne]
  · have h' : ¬ distance > maxDistanceOf keys := by linarith
    simp [resolveDistance, wrapDistance, fmod, h, h', hne]
  · have h1 : truncRem 110 100 = 10 := by
      simp [truncRem]
      norm_num
    simp [resolveDistance, wrapDistance, fmod, h0, h100, h1]
    norm_num

/-- Witness of C8: on the curve `(0,0)-(1,100)`, the distances 250 (above the
maximum), -30 (below the minimum) and 110. -/
theorem loop_wraparound_witness :
    resolveDistance hundredCurve true 250 =
        resolveDistance hundredCurve false
          (minDistanceOf hundredCurve +
            truncRem 250 (maxDistanceOf hundredCurve - minDistanceOf hundredCurve)) ∧
    resolveDistance hundredCurve true (-30) =
        resolveDistance hundredCurve false
          (maxDistanceOf hundredCurve -
            truncRem (-30) (maxDistanceOf hundredCurve - minDistanceOf hundredCurve)) ∧
    (resolveDistance hundredCurve true 110 = resolveDistance hundredCurve false 10 ∧
      resolveDistance hundredCurve true 110 = resolveDistance hundredCurve true 10) :=
  ⟨(loop_wraparound hundredCurve 250
        (by rw [minDistance_hundredCurve, maxDistance_hundredCurve]; norm_num)).1
      (by rw [maxDistance_hundredCurve]; norm_num),
    (loop_wraparound hundredCurve (-30)
        (by rw [minDistance_hundredCurve, maxDistance_hundredCurve]; norm_num)).2.1
      (by rw [minDistance_hundredCurve]; norm_num),
    (loop_wraparound hundredCurve 110
        (by rw [minDistance_hundredCurve, maxDistance_hundredCurve]; norm_num)).2.2
      minDistance_hundredCurve maxDistance_hundredCurve⟩

/-! ## C9: degenerate curve -/

/-- Counterexample to C9: on the blended curve of no samples, all of whose
values are 0, the distance 0 resolves, not looping, to time 1 and not to the
first key's time 0. -/
theorem degenerate_curve_end_time :
    maxDistanceOf (BlendedDistanceCurve []) = minDistanceOf (BlendedDistanceCurve []) ∧
    (BlendedDistanceCurve []).head?.map (fun k => k.Time) = some 0 ∧
    resolveTime (BlendedDistanceCurve []) false false 0 0 = 1 ∧
    resolveTime (BlendedDistanceCurve []) false false 0 0 ≠ 0 := by
  refine ⟨by rw [maxDistance_nil, minDistance_nil], by simp [blended_head?], ?_, ?_⟩ <;>
    simp [resolveTime, resolveDistance, wrapDistance, timeOfWrapped, timeOfDistance,
      effectiveDistance, maxDistance_nil, minDistance_nil]

/-- C9, amended: for every curve with `maxDistance == minDistance` and every
resolve call that takes no modulo (not looping, or the effective distance equal
to `maxDistance`), the playback time is 1.0 when the effective distance is at
least `maxDistance` and 0.0 otherwise. -/
theorem degenerate_curve (keys : List FRichCurveKey) (bLoop bUseDeltaDistance : Bool)
    (prevTime inputDistance : ℚ) (hdeg : maxDistanceOf keys = minDistanceOf keys)
    (hmod : bLoop = false ∨
      effectiveDistance keys bUseDeltaDistance prevTime inputDistance = maxDistanceOf keys) :
    resolveTime keys bLoop bUseDeltaDistance prevTime inputDistance =
      if effectiveDistance keys bUseDeltaDistance prevTime inputDistance ≥ maxDistanceOf keys
      then 1 else 0 := by
  unfold resolveTime resolveDistance
  generalize effectiveDistance keys bUseDeltaDistance prevTime inputDistance = d at *
  have hw : wrapDistance bLoop (minDistanceOf keys) (maxDistanceOf keys) d = some d := by
    rcases hmod with h | h
    · simp [wrapDistance, h]
    · simp [wrapDistance, h, hdeg]
  rw [hw]
  simp only [timeOfWrapped, timeOfDistance]
  by_cases h1 : d ≥ maxDistanceOf keys
  · simp [h1]
  · have h2 : d ≤ minDistanceOf keys := by rw [← hdeg]; exact le_of_lt (not_le.mp h1)
    simp [h1, h2]

/-- Witness of the amended C9: the all-zero blended curve, not looping, in delta
mode, with input distance -2. -/
theorem degenerate_curve_witness :
    resolveTime (BlendedDistanceCurve []) false true (1 / 2) (-2) =
      if effectiveDistance (BlendedDistanceCurve []) true (1 / 2) (-2) ≥
        maxDistanceOf (BlendedDistanceCurve []) then 1 else 0 :=
  degenerate_curve (BlendedDistanceCurve []) false true (1 / 2) (-2)
    (by rw [maxDistance_nil, minDistance_nil]) (Or.inl rfl)

/-! ## C10: zero divisors -/

/-- C10 at its failing inputs.  Blended resolver: looping on the all-zero
blended curve of no samples, `deltaDistance` is 0 and the distance 5 is wrapped
through `fmod` with that divisor, which gives NaN, not 0; the time is the 0.0
left by a scan in which no comparison succeeds.  Single-clip resolver: looping
on the curve `(0,-100)-(1,0)` of a clip of length 1, `maxDistance` is 0 and the
distance 5 goes through `fmod` with that divisor. -/
theorem fmod_zero_divisor :
    maxDistanceOf (BlendedDistanceCurve []) - minDistanceOf (BlendedDistanceCurve []) = 0 ∧
    wrapDistance true (minDistanceOf (BlendedDistanceCurve []))
      (maxDistanceOf (BlendedDistanceCurve [])) 5 = none ∧
    resolveTime (BlendedDistanceCurve []) true false 0 5 = 0 ∧
    Evaluate stopCurve 1 = 0 ∧
    overshoot true 1 (Evaluate stopCurve 1) 5 0 = (0, none) ∧
    matchDistance stopCurve 1 true false 5 0 = some 0 := by
  have he : Evaluate stopCurve 1 = 0 := by simp [Evaluate, stopCurve]
  refine ⟨by rw [maxDistance_nil, minDistance_nil]; norm_num, ?_, ?_, he, ?_, ?_⟩
  · simp [wrapDistance, fmod, maxDistance_nil, minDistance_nil]
  · simp [resolveTime, resolveDistance, effectiveDistance, timeOfWrapped, wrapDistance, fmod,
      maxDistance_nil, minDistance_nil]
  · simp [overshoot, fmod, he]
  · simp [matchDistance, targetDistance, overshoot, fmod, he]

/-! ## C11: zero-delta jump snap -/

theorem explicitTimeBranch_tick (node : SequenceEvaluator) (seq : UAnimSequenceBase)
    (ctx : UpdateContext)
    (htick : ((!node.bTeleportToExplicitTime || decide (node.GroupIndex ≠ INDEX_NONE)) &&
      ctx.SkeletonCompatible) = true) :
    explicitTimeBranch node seq ctx =
      ({ node with
          ExplicitTime := clamp node.ExplicitTime 0 seq.SequenceLength,
          InternalTimeAccumulator :=
            if timeJump node.bShouldLoop seq.SequenceLength
                (clamp node.ExplicitTime 0 seq.SequenceLength) (preJumpAccumulator node seq) = 0
            then clamp node.ExplicitTime 0 seq.SequenceLength
            else preJumpAccumulator node seq,
          bReinitialized := false },
        some (if IsNearlyZero ctx.DeltaTime || IsNearlyZero seq.RateScale then 0
          else timeJump node.bShouldLoop seq.SequenceLength
              (clamp node.ExplicitTime 0 seq.SequenceLength) (preJumpAccumulator node seq) /
            (ctx.DeltaTime * seq.RateScale))) := by
  unfold explicitTimeBranch preJumpAccumulator
  simp only [htick, if_true]

/-- C11: in the explicit-time branch with a tick record, for every clip length,
explicit time and pre-jump accumulator, whenever the time jump after the loop
correction equals 0 the resulting `InternalTimeAccumulator` is exactly the
clamped `ExplicitTime`, whatever the pre-jump accumulator was, and the play
rate is 0. -/
theorem zero_jump_snap (node : SequenceEvaluator) (seq : UAnimSequenceBase) (ctx : UpdateContext)
    (hseq : node.Sequence = some seq)
    (hfallback : (node.bShouldUseExplicityTimeAsDistanceCurveLookup && seq.HasSkeleton) = false)
    (htick : ((!node.bTeleportToExplicitTime || decide (node.GroupIndex ≠ INDEX_NONE)) &&
      ctx.SkeletonCompatible) = true)
    (hzero : timeJump node.bShouldLoop seq.SequenceLength
      (clamp node.ExplicitTime 0 seq.SequenceLength) (preJumpAccumulator node seq) = 0) :
    (node.UpdateAssetPlayer ctx).1.InternalTimeAccumulator =
      clamp node.ExplicitTime 0 seq.SequenceLength ∧
    (node.UpdateAssetPlayer ctx).1.ExplicitTime = clamp node.ExplicitTime 0 seq.SequenceLength ∧
    (node.UpdateAssetPlayer ctx).2 = some 0 := by
  have h : node.UpdateAssetPlayer ctx = explicitTimeBranch node seq ctx := by
    simp only [SequenceEvaluator.UpdateAssetPlayer, hseq, hfallback]
    simp
  rw [h, explicitTimeBranch_tick node seq ctx htick, hzero]
  simp

/-- Witness of C11: looping on a clip of length 2, accumulator 0 and explicit
time 2; the jump 2 is corrected to 0 and the accumulator becomes 2. -/
theorem zero_jump_snap_witness :
    preJumpAccumulator seamNode seamClip = 0 ∧
    clamp seamNode.ExplicitTime 0 seamClip.SequenceLength = 2 ∧
    (seamNode.UpdateAssetPlayer tickContext).1.InternalTimeAccumulator = 2 ∧
    (seamNode.UpdateAssetPlayer tickContext).2 = some 0 := by
  have hc : clamp seamNode.ExplicitTime 0 seamClip.SequenceLength = 2 := by
    simp [clamp, seamNode, seamClip]
  have hp : preJumpAccumulator seamNode seamClip = 0 := by
    simp [preJumpAccumulator, seamNode]
  have h := zero_jump_snap seamNode seamClip tickContext rfl rfl rfl
    (by rw [hc, hp]; simp [timeJump, seamNode, seamClip])
  rw [hc] at h
  exact ⟨hp, hc, h.1, h.2.2⟩

/-! ## C12: loop-seam correction -/

theorem timeJump_cases (L E A : ℚ) (hL : 0 < L) (hE0 : 0 ≤ E) (hE1 : E ≤ L)
    (hA0 : 0 ≤ A) (hA1 : A ≤ L) :
    |timeJump true L E A| ≤ L / 2 ∧
    (timeJump true L E A = E - A - L ∨ timeJump true L E A = E - A ∨
      timeJump true L E A = E - A + L) := by
  unfold timeJump
  simp only [if_true]
  by_cases h1 : |E - A| > L * (1 / 2)
  · rw [if_pos h1]
    by_cases h2 : E - A > 0
    · rw [if_pos h2]
      refine ⟨?_, Or.inl rfl⟩
      rw [abs_of_pos h2] at h1
      rw [abs_le]
      constructor <;> linarith
    · rw [if_neg h2]
      refine ⟨?_, Or.inr (Or.inr rfl)⟩
      rw [abs_of_nonpos (not_lt.mp h2)] at h1
      rw [abs_le]
      constructor <;> linarith
  · rw [if_neg h1]
    refine ⟨?_, Or.inr (Or.inl rfl)⟩
    have := not_lt.mp h1
    linarith

theorem abs_le_abs_add_mul (J L : ℚ) (hL : 0 < L) (hJ : |J| ≤ L / 2) (n : ℤ) :
    |J| ≤ |J + n * L| := by
  rcases lt_trichotomy n 0 with hn | hn | hn
  · have h1 : (n : ℚ) ≤ -1 := by exact_mod_cast Int.le_sub_one_of_lt hn
    have h2 : J + n * L ≤ -(L / 2) := by
      have := abs_le.mp hJ
      nlinarith
    have : |J + n * L| ≥ L / 2 := by
      rw [abs_of_nonpos (by linarith)]; linarith
    linarith
  · subst hn; simp
  · have h1 : (1 : ℚ) ≤ n := by exact_mod_cast hn
    have h2 : L / 2 ≤ J + n * L := by
      have := abs_le.mp hJ
      nlinarith
    have : |J + n * L| ≥ L / 2 := by
      rw [abs_of_nonneg (by linarith)]; linarith
    linarith

/-- C12: when looping, for every clip length `L > 0` and every explicit time and
accumulator both in `[0, L]`, the corrected time jump has absolute value at
most `L/2`, differs from `ExplicitTime - InternalTimeAccumulator` by exactly
`-L`, `0` or `+L`, and no other move by a whole number of clip lengths is
shorter; when not looping the time jump is exactly
`ExplicitTime - InternalTimeAccumulator`. -/
theorem loop_seam_correction (L E A : ℚ) (hL : 0 < L) (hE0 : 0 ≤ E) (hE1 : E ≤ L)
    (hA0 : 0 ≤ A) (hA1 : A ≤ L) :
    |timeJump true L E A| ≤ L / 2 ∧
    (timeJump true L E A = E - A - L ∨ timeJump true L E A = E - A ∨
      timeJump true L E A = E - A + L) ∧
    (∀ k : ℤ, |timeJump true L E A| ≤ |E - A + k * L|) ∧
    timeJump false L E A = E - A := by
  obtain ⟨hb, hc⟩ := timeJump_cases L E A hL hE0 hE1 hA0 hA1
  refine ⟨hb, hc, fun k => ?_, by simp [timeJump]⟩
  rcases hc with h | h | h
  · have := abs_le_abs_add_mul (timeJump true L E A) L hL hb (k + 1)
    rw [h] at this ⊢
    push_cast at this
    have e : E - A - L + (k + 1) * L = E - A + k * L := by ring
    rw [e] at this
    exact this
  · have := abs_le_abs_add_mul (timeJump true L E A) L hL hb k
    rw [h] at this ⊢
    exact this
  · have := abs_le_abs_add_mul (timeJump true L E A) L hL hb (k - 1)
    rw [h] at this ⊢
    push_cast at this
    have e : E - A + L + (k - 1) * L = E - A + k * L := by ring
    rw [e] at this
    exact this

/-- Witness of C12: on a clip of length 2, from accumulator 0.1 to explicit time
1.9. -/
theorem loop_seam_correction_witness :
    |timeJump true 2 (19 / 10) (1 / 10)| ≤ 2 / 2 ∧
    (timeJump true 2 (19 / 10) (1 / 10) = 19 / 10 - 1 / 10 - 2 ∨
      timeJump true 2 (19 / 10) (1 / 10) = 19 / 10 - 1 / 10 ∨
      timeJump true 2 (19 / 10) (1 / 10) = 19 / 10 - 1 / 10 + 2) ∧
    (∀ k : ℤ, |timeJump true 2 (19 / 10) (1 / 10)| ≤ |(19 / 10 - 1 / 10 + (k : ℚ) * 2 : ℚ)|) ∧
    timeJump false 2 (19 / 10) (1 / 10) = 19 / 10 - 1 / 10 :=
  loop_seam_correction 2 (19 / 10) (1 / 10) (by norm_num) (by norm_num) (by norm_num)
    (by norm_num) (by norm_num)

/-! ## C13: the normalized-time invariant and the interior branch -/

theorem scanKeys_eq_bracketTime (d : ℚ) (keys : List FRichCurveKey) :
    ∀ prev : FRichCurveKey,
      scanKeys d prev keys = bracketTime (some d) (findBracket (some d) prev keys) := by
  induction keys with
  | nil => intro prev; rfl
  | cons key rest ih =>
    intro prev
    by_cases h : key.Value > d
    · simp [scanKeys, findBracket, gtNaN, bracketTime, alphaOf, h]
    · simp only [scanKeys, findBracket, gtNaN, if_neg h, decide_eq_true_eq]
      exact ih key

theorem findBracket_nan (keys : List FRichCurveKey) :
    ∀ prev : FRichCurveKey, findBracket none prev keys = none := by
  induction keys with
  | nil => intro prev; rfl
  | cons key rest ih =>
    intro prev
    simp only [findBracket, gtNaN, Bool.false_eq_true, if_false]
    exact ih key

theorem timeOfWrapped_eq_branches (keys : List FRichCurveKey) (distance : Option ℚ) :
    timeOfWrapped keys distance =
      if geNaN distance (maxDistanceOf keys) then 1
      else if leNaN distance (minDistanceOf keys) then 0
      else bracketTime distance (findBracket distance defaultKey keys) := by
  cases distance with
  | none => simp [timeOfWrapped, geNaN, leNaN, bracketTime]
  | some d =>
    simp only [timeOfWrapped, timeOfDistance, geNaN, leNaN, decide_eq_true_eq,
      scanKeys_eq_bracketTime]

theorem findBracket_consecutive (d : ℚ) (rest : List FRichCurveKey) :
    ∀ prev : FRichCurveKey, prev.Value ≤ d →
      d < ((prev :: rest).getLast (List.cons_ne_nil prev rest)).Value →
      ∃ (pre post : List FRichCurveKey) (p k : FRichCurveKey),
        prev :: rest = pre ++ p :: k :: post ∧
        findBracket (some d) prev rest = some (p, k) ∧ p.Value ≤ d ∧ d < k.Value := by
  induction rest with
  | nil =>
    intro prev hle hlt
    simp only [List.getLast_singleton] at hlt
    exact absurd hlt (not_lt.mpr hle)
  | cons key rest ih =>
    intro prev hle hlt
    by_cases h : key.Value > d
    · exact ⟨[], rest, prev, key, rfl, by simp [findBracket, gtNaN, h], hle, h⟩
    · rw [List.getLast_cons (List.cons_ne_nil key rest)] at hlt
      obtain ⟨pre, post, p, k, hsplit, hfind, hp, hk⟩ := ih key (not_lt.mp h) hlt
      refine ⟨prev :: pre, post, p, k, by rw [hsplit]; rfl, ?_, hp, hk⟩
      simp only [findBracket, gtNaN, decide_eq_true_eq, if_neg h]
      exact hfind

theorem alphaOf_mem (d : ℚ) (p k : FRichCurveKey) (hp : p.Value ≤ d) (hk : d < k.Value) :
    0 ≤ alphaOf d p k ∧ alphaOf d p k < 1 := by
  have hdelta : 0 < k.Value - p.Value := by linarith
  unfold alphaOf
  simp only [ne_eq, ne_of_gt hdelta, not_false_eq_true, if_true]
  exact ⟨div_nonneg (by linarith) (le_of_lt hdelta), by rw [div_lt_one hdelta]; linarith⟩

/-- In the interior branch with a distance that is a number, the scan stops at a
key that has a predecessor in the curve, and alpha is in `[0, 1)`. -/
theorem interior_bracket (keys : List FRichCurveKey) (d : ℚ)
    (hint : interiorBranch keys (some d) = true) :
    ∃ (pre post : List FRichCurveKey) (p k : FRichCurveKey),
      keys = pre ++ p :: k :: post ∧
      findBracket (some d) defaultKey keys = some (p, k) ∧
      0 ≤ alphaOf d p k ∧ alphaOf d p k < 1 := by
  simp only [interiorBranch, geNaN, leNaN, Bool.and_eq_true, Bool.not_eq_true',
    decide_eq_false_iff_not, not_le] at hint
  obtain ⟨hmax, hmin⟩ := hint
  cases keys with
  | nil =>
    simp only [maxDistanceOf, minDistanceOf, List.getLast?_nil, List.head?_nil,
      Option.getD_none] at hmax hmin
    exact absurd hmax (not_lt.mpr (le_of_lt hmin))
  | cons k0 rest =>
    rw [maxDistanceOf_cons] at hmax
    rw [minDistanceOf_cons] at hmin
    obtain ⟨pre, post, p, k, hsplit, hfind, hp, hk⟩ :=
      findBracket_consecutive d rest k0 (le_of_lt hmin) hmax
    refine ⟨pre, post, p, k, hsplit, ?_, alphaOf_mem d p k hp hk⟩
    simp only [findBracket, gtNaN, decide_eq_true_eq, if_neg (not_lt.mpr (le_of_lt hmin))]
    exact hfind

theorem clamp_unit_mem (x : ℚ) : 0 ≤ clamp x 0 1 ∧ clamp x 0 1 ≤ 1 := by
  unfold clamp
  by_cases h0 : x < 0
  · simp [h0]
  · by_cases h1 : x < 1
    · simp [h0, h1]
      exact ⟨not_lt.mp h0, le_of_lt h1⟩
    · simp [h0, h1]

theorem timeOfDistance_mem (keys : List FRichCurveKey) (hne : keys ≠ [])
    (htimes : TimesIncreasing keys) (hfirst : (keys.head hne).Time = 0)
    (hlast : (keys.getLast hne).Time = 1) (d : ℚ) :
    0 ≤ timeOfDistance keys d ∧ timeOfDistance keys d ≤ 1 := by
  cases keys with
  | nil => exact absurd rfl hne
  | cons k0 rest =>
    simp only [List.head_cons] at hfirst
    have hchain : List.Chain (fun a b => a.Time < b.Time) k0 rest := htimes
    simp only [timeOfDistance, maxDistanceOf_cons, minDistanceOf_cons]
    by_cases a : d ≥ ((k0 :: rest).getLast (List.cons_ne_nil k0 rest)).Value
    · rw [if_pos a]; norm_num
    · rw [if_neg a]
      by_cases b : d ≤ k0.Value
      · rw [if_pos b]; norm_num
      · rw [if_neg b, scanKeys, if_neg (not_lt.mpr (le_of_lt (not_le.mp b)))]
        obtain ⟨hlo, hhi, _⟩ :=
          scanKeys_spec d rest k0 hchain (le_of_lt (not_le.mp b)) (not_le.mp a)
        rw [hfirst] at hlo
        rw [hlast] at hhi
        exact ⟨hlo, le_of_lt hhi⟩

theorem resolveTime_blended_mem (samples : List FBlendSampleData) (bLoop bUseDeltaDistance : Bool)
    (prevTime inputDistance : ℚ) :
    0 ≤ resolveTime (BlendedDistanceCurve samples) bLoop bUseDeltaDistance prevTime
      inputDistance ∧
    resolveTime (BlendedDistanceCurve samples) bLoop bUseDeltaDistance prevTime
      inputDistance ≤ 1 := by
  unfold resolveTime resolveDistance
  cases wrapDistance bLoop (minDistanceOf (BlendedDistanceCurve samples))
      (maxDistanceOf (BlendedDistanceCurve samples))
      (effectiveDistance (BlendedDistanceCurve samples) bUseDeltaDistance prevTime
        inputDistance) with
  | none => simp [timeOfWrapped]
  | some d =>
    exact timeOfDistance_mem _ (blended_ne_nil samples) (blended_timesIncreasing samples)
      (blended_head_time samples) (blended_getLast_time samples) d

/-- For every node the playback time after the update lies in `[0, 1]`. -/
theorem UpdateAssetPlayer_time_mem (node : BlendSpaceEvaluator) :
    0 ≤ node.UpdateAssetPlayer.InternalTimeAccumulator ∧
    node.UpdateAssetPlayer.InternalTimeAccumulator ≤ 1 := by
  unfold BlendSpaceEvaluator.UpdateAssetPlayer
  cases node.BlendSpace with
  | none => exact clamp_unit_mem _
  | some blendSpace =>
    simp only
    split
    · exact resolveTime_blended_mem _ _ _ _ _
    · exact clamp_unit_mem _

/-- C13 at its failing input.  The looping node `emptyLoopNode` has an all-zero
blended curve, so `deltaDistance` is 0 and the distance 5 is wrapped through
`fmod` with a zero divisor to NaN; neither test of lines 95 and 99 succeeds,
the interior branch is taken, and no key stops the scan: no bracketing key is
found.  The time keeps its initial 0.0. -/
theorem interior_branch_without_bracket :
    emptyLoopNode.BlendSpace = some ⟨true, []⟩ ∧
    wrapDistance true (minDistanceOf (BlendedDistanceCurve []))
      (maxDistanceOf (BlendedDistanceCurve [])) 5 = none ∧
    interiorBranch (BlendedDistanceCurve []) none = true ∧
    findBracket none defaultKey (BlendedDistanceCurve []) = none ∧
    emptyLoopNode.UpdateAssetPlayer.InternalTimeAccumulator = 0 := by
  have hw : wrapDistance true (minDistanceOf (BlendedDistanceCurve []))
      (maxDistanceOf (BlendedDistanceCurve [])) 5 = none := by
    simp [wrapDistance, fmod, maxDistance_nil, minDistance_nil]
  refine ⟨rfl, hw, by simp [interiorBranch, geNaN, leNaN], findBracket_nan _ _, ?_⟩
  simp [BlendSpaceEvaluator.UpdateAssetPlayer, emptyLoopNode, resolveTime, resolveDistance,
    effectiveDistance, hw, timeOfWrapped]

/-! ## C14: the wrapped distance and the curve's range -/

theorem truncRem_of_nonneg (x y : ℚ) (hx : 0 ≤ x) (hy : 0 < y) :
    0 ≤ truncRem x y ∧ truncRem x y < y := by
  have hq : 0 ≤ x / y := div_nonneg hx (le_of_lt hy)
  unfold truncRem
  simp only [if_pos hq]
  have h1 : ((⌊x / y⌋ : ℤ) : ℚ) ≤ x / y := Int.floor_le _
  have h2 : x / y < (⌊x / y⌋ : ℤ) + 1 := Int.lt_floor_add_one _
  have e : x = y * (x / y) := by field_simp
  constructor
  · nlinarith [mul_le_mul_of_nonneg_left h1 (le_of_lt hy)]
  · nlinarith [mul_lt_mul_of_pos_left h2 hy]

theorem wrapDistance_mem_of_nonneg (minDistance maxDistance distance : ℚ)
    (hdelta : maxDistance - minDistance > 0) (hd : 0 ≤ distance) :
    ∃ wrapped, wrapDistance true minDistance maxDistance distance = some wrapped ∧
      (distance > maxDistance ∨ distance < minDistance →
        minDistance ≤ wrapped ∧ wrapped ≤ maxDistance) := by
  obtain ⟨h0, h1⟩ := truncRem_of_nonneg distance (maxDistance - minDistance) hd hdelta
  have hne : maxDistance - minDistance ≠ 0 := ne_of_gt hdelta
  by_cases a : distance > maxDistance
  · refine ⟨minDistance + truncRem distance (maxDistance - minDistance), ?_, fun _ => ?_⟩
    · simp [wrapDistance, fmod, a, hne]
    · constructor <;> linarith
  · by_cases b : distance < minDistance
    · refine ⟨maxDistance - truncRem distance (maxDistance - minDistance), ?_, fun _ => ?_⟩
      · simp [wrapDistance, fmod, a, b, hne]
      · constructor <;> linarith
    · refine ⟨distance, ?_, fun h => ?_⟩
      · simp [wrapDistance, a, b]
      · rcases h with h | h
        · exact absurd h a
        · exact absurd h b

theorem truncRem_neg_five : truncRem (-5) 15 = -5 := by
  simp [truncRem]
  norm_num

theorem truncRem_neg_thirty : truncRem (-30) 50 = -30 := by
  simp [truncRem]
  norm_num

/-- C14 at its failing inputs.  Looping on the blend of clips A and B (distances
0 to 15, `deltaDistance` 15), the distance -5 is below `minDistance`;
`fmod(-5, 15)` is -5 and the wrapped distance is `15 - (-5) = 20`, above
`maxDistance`, so the node's time is clamped to 1.  With `minDistance = -100`
and `maxDistance = -50` the distance -30, above `maxDistance`, is wrapped to
`-100 + fmod(-30, 50) = -130`, below `minDistance`. -/
theorem wrap_leaves_range :
    maxDistanceOf (BlendedDistanceCurve [clipA, clipB]) -
      minDistanceOf (BlendedDistanceCurve [clipA, clipB]) > 0 ∧
    (-5 : ℚ) < minDistanceOf (BlendedDistanceCurve [clipA, clipB]) ∧
    wrapDistance true (minDistanceOf (BlendedDistanceCurve [clipA, clipB]))
      (maxDistanceOf (BlendedDistanceCurve [clipA, clipB])) (-5) = some 20 ∧
    (20 : ℚ) > maxDistanceOf (BlendedDistanceCurve [clipA, clipB]) ∧
    backwardLoopNode.UpdateAssetPlayer.InternalTimeAccumulator = 1 ∧
    wrapDistance true (-100) (-50) (-30) = some (-130) := by
  have h1 : wrapDistance true 0 15 (-5) = some 20 := by
    simp [wrapDistance, fmod, truncRem_neg_five]
    norm_num
  refine ⟨?_, ?_, ?_, ?_, ?_, ?_⟩
  · rw [maxDistance_clipAB, minDistance_clipAB]; norm_num
  · rw [minDistance_clipAB]; norm_num
  · rw [maxDistance_clipAB, minDistance_clipAB]; exact h1
  · rw [maxDistance_clipAB]; norm_num
  · simp [BlendSpaceEvaluator.UpdateAssetPlayer, backwardLoopNode, resolveTime, resolveDistance,
      effectiveDistance, maxDistance_clipAB, minDistance_clipAB, h1, timeOfWrapped,
      timeOfDistance]
    norm_num
  · have e : ((-50 : ℚ) - (-100)) = 50 := by norm_num
    simp only [wrapDistance, if_true, e]
    simp [fmod, truncRem_neg_thirty]
    norm_num

/-! ## C15: the resolver is monotone in the distance -/

theorem scanKeys_mono (d1 d2 : ℚ) (h12 : d1 ≤ d2) (rest : List FRichCurveKey) :
    ∀ prev : FRichCurveKey, List.Chain (fun a b => a.Time < b.Time) prev rest →
      prev.Value ≤ d1 → d2 < ((prev :: rest).getLast (List.cons_ne_nil prev rest)).Value →
      scanKeys d1 prev rest ≤ scanKeys d2 prev rest := by
  induction rest with
  | nil =>
    intro prev _ hle hlt
    simp only [List.getLast_singleton] at hlt
    exact absurd hlt (not_lt.mpr (le_trans hle h12))
  | cons key rest ih =>
    intro prev hchain hle hlt
    have hchain' := hchain
    rw [List.chain_cons] at hchain'
    obtain ⟨ht, hrest⟩ := hchain'
    have hdt : 0 < key.Time - prev.Time := by linarith
    by_cases hk2 : key.Value > d2
    · have hk1 : key.Value > d1 := lt_of_le_of_lt h12 hk2
      have hdelta : key.Value - prev.Value > 0 := by linarith
      have e1 : scanKeys d1 prev (key :: rest) =
          prev.Time + (d1 - prev.Value) / (key.Value - prev.Value) * (key.Time - prev.Time) := by
        simp [scanKeys, hk1, ne_of_gt hdelta]
      have e2 : scanKeys d2 prev (key :: rest) =
          prev.Time + (d2 - prev.Value) / (key.Value - prev.Value) * (key.Time - prev.Time) := by
        simp [scanKeys, hk2, ne_of_gt hdelta]
      rw [e1, e2]
      have ha : (d1 - prev.Value) / (key.Value - prev.Value) ≤
          (d2 - prev.Value) / (key.Value - prev.Value) :=
        div_le_div_of_nonneg_right (by linarith) (le_of_lt hdelta)
      nlinarith [mul_le_mul_of_nonneg_right ha (le_of_lt hdt)]
    · have hk2' : key.Value ≤ d2 := not_lt.mp hk2
      have e2 : scanKeys d2 prev (key :: rest) = scanKeys d2 key rest := by
        simp [scanKeys, hk2]
      rw [List.getLast_cons (List.cons_ne_nil key rest)] at hlt
      have hlo2 := (scanKeys_spec d2 rest key hrest hk2' hlt).1
      by_cases hk1 : key.Value > d1
      · have hd1lt : d1 < ((prev :: key :: rest).getLast (List.cons_ne_nil _ _)).Value := by
          rw [List.getLast_cons (List.cons_ne_nil key rest)]
          exact lt_of_le_of_lt h12 hlt
        have hdelta : key.Value - prev.Value > 0 := by linarith
        have e1 : scanKeys d1 prev (key :: rest) =
            prev.Time + (d1 - prev.Value) / (key.Value - prev.Value) * (key.Time - prev.Time) := by
          simp [scanKeys, hk1, ne_of_gt hdelta]
        have ha1 : (d1 - prev.Value) / (key.Value - prev.Value) < 1 := by
          rw [div_lt_one hdelta]; linarith
        rw [e1, e2]
        nlinarith [mul_lt_mul_of_pos_right ha1 hdt]
      · have e1 : scanKeys d1 prev (key :: rest) = scanKeys d1 key rest := by
          simp [scanKeys, hk1]
        rw [e1, e2]
        exact ih key hrest (not_lt.mp hk1) hlt

/-- C15: not looping and in absolute mode, for every curve with strictly
increasing key times from 0 to 1 (every blended curve) and arbitrary key
values, and all target distances `d1 <= d2`, the time resolved for `d1` is at
most the time resolved for `d2`. -/
theorem resolve_monotone (keys : List FRichCurveKey) (hne : keys ≠ [])
    (htimes : TimesIncreasing keys) (hfirst : (keys.head hne).Time = 0)
    (hlast : (keys.getLast hne).Time = 1) (prevTime1 prevTime2 d1 d2 : ℚ) (h12 : d1 ≤ d2) :
    resolveTime keys false false prevTime1 d1 ≤ resolveTime keys false false prevTime2 d2 := by
  cases keys with
  | nil => exact absurd rfl hne
  | cons k0 rest =>
    simp only [List.head_cons] at hfirst
    have hchain : List.Chain (fun a b => a.Time < b.Time) k0 rest := htimes
    simp only [resolveTime, resolveDistance, wrapDistance, effectiveDistance, timeOfWrapped,
      timeOfDistance, Bool.false_eq_true, if_false, maxDistanceOf_cons, minDistanceOf_cons]
    have hscan : ∀ d : ℚ, ¬ d ≥ ((k0 :: rest).getLast (List.cons_ne_nil k0 rest)).Value →
        ¬ d ≤ k0.Value →
        scanKeys d defaultKey (k0 :: rest) = scanKeys d k0 rest ∧
        0 ≤ scanKeys d k0 rest ∧ scanKeys d k0 rest ≤ 1 := by
      intro d hmax hmin
      have e : scanKeys d defaultKey (k0 :: rest) = scanKeys d k0 rest := by
        rw [scanKeys, if_neg (not_lt.mpr (le_of_lt (not_le.mp hmin)))]
      obtain ⟨hlo, hhi, _⟩ :=
        scanKeys_spec d rest k0 hchain (le_of_lt (not_le.mp hmin)) (not_le.mp hmax)
      rw [hfirst] at hlo
      rw [hlast] at hhi
      exact ⟨e, hlo, le_of_lt hhi⟩
    by_cases a2 : d2 ≥ ((k0 :: rest).getLast (List.cons_ne_nil k0 rest)).Value
    · rw [if_pos a2]
      by_cases a1 : d1 ≥ ((k0 :: rest).getLast (List.cons_ne_nil k0 rest)).Value
      · rw [if_pos a1]
      · rw [if_neg a1]
        by_cases b1 : d1 ≤ k0.Value
        · rw [if_pos b1]; norm_num
        · rw [if_neg b1, (hscan d1 a1 b1).1]
          exact (hscan d1 a1 b1).2.2
    · have a1 : ¬ d1 ≥ ((k0 :: rest).getLast (List.cons_ne_nil k0 rest)).Value :=
        fun h => a2 (le_trans h h12)
      rw [if_neg a2, if_neg a1]
      by_cases b1 : d1 ≤ k0.Value
      · rw [if_pos b1]
        by_cases b2 : d2 ≤ k0.Value
        · rw [if_pos b2]
        · rw [if_neg b2, (hscan d2 a2 b2).1]
          exact (hscan d2 a2 b2).2.1
      · have b2 : ¬ d2 ≤ k0.Value := fun h => b1 (le_trans h12 h)
        rw [if_neg b1, if_neg b2, (hscan d1 a1 b1).1, (hscan d2 a2 b2).1]
        exact scanKeys_mono d1 d2 h12 rest k0 hchain (le_of_lt (not_le.mp b1)) (not_le.mp a2)

/-- Witness of C15: the distances 3 and 7 on the blend of `zigzagClip`, whose key
values are not monotone. -/
theorem resolve_monotone_witness :
    resolveTime (BlendedDistanceCurve [zigzagClip]) false false 0 3 ≤
      resolveTime (BlendedDistanceCurve [zigzagClip]) false false 0 7 :=
  resolve_monotone (BlendedDistanceCurve [zigzagClip]) (blended_ne_nil _)
    (blended_timesIncreasing _) (blended_head_time _) (blended_getLast_time _) 0 0 3 7
    (by norm_num)

end DistanceMatching
